import Mathlib

/-!
# tqm: rule evaluation, removal sequence, free-space accounting, tracker selection

A shallow embedding of `expression/check.go`, `expression/struct.go` and
`client/qbittorrent.go`.

Conventions of the embedding

* A Go `error` is a value of `Error`; the Go `nil` error is `none : Option Error`.
* A Go multi-value return `(x, err)` is a pair `(x, err)`.
* Everything the code obtains from outside the repository's own files that are
  modelled here (float arithmetic, the clock, `filepath.Join`, the version
  library, helpers of sibling packages) is a field of `Runtime`; the general
  theorems hold for every `Runtime`, and the closed ones evaluate the model at
  `demoRuntime` or, where float arithmetic matters, at `ieeeRuntime`.
* Calls that leave the process (backend commands, sleeps, filesystem queries)
  are recorded, in order, in a trace of `Event`s, and the answer the outside
  world gives to a call is a function of the trace so far.
-/

namespace Tqm

/-! ## Errors -/

/-- A Go error value: `errors.New` text, or an error made by `fmt.Errorf` with a
`%w` verb, which keeps the formatted message and the wrapped cause. -/
inductive Error where
  | errorString (s : String)
  | wrapError (msg : String) (err : Error)
  deriving DecidableEq, Repr

/-- The message of an error, what its method `Error()` returns. -/
def Error.text : Error → String
  | .errorString s => s
  | .wrapError msg _ => msg

/-- The method `Unwrap()`: the wrapped cause, if any. -/
def Error.Unwrap : Error → Option Error
  | .errorString _ => none
  | .wrapError _ err => some err

/-- The call `fmt.Errorf(pre + "%w", err)` where `pre` is the already formatted
text in front of the final `%w` verb.  With a nil operand `fmt` prints
`%!w(<nil>)` and wraps nothing; the returned error is non-nil either way. -/
def fmt_Errorf (pre : String) (err : Option Error) : Error :=
  match err with
  | some e => .wrapError (pre ++ e.text) e
  | none => .errorString (pre ++ "%!w(<nil>)")

/-! ## Values of the expression language -/

/-- A dynamically typed result of `expr.Run` (Go `any`). -/
inductive Value where
  | nil
  | bool (b : Bool)
  | int (i : Int)
  | str (s : String)
  deriving DecidableEq, Repr

/-- The type assertion `result.(bool)`, as the pair `(expResult, ok)`. -/
def Value.assertBool : Value → Bool × Bool
  | .bool b => (b, true)
  | _ => (false, false)

/-! ## Calls that leave the process -/

/-- One call to the backend, the filesystem or the scheduler. -/
inductive Event where
  | GetAPIVersion
  | GetList
  | GetProperties (hash : String)
  | GetTrackers (hash : String)
  | GetContents (hash : String)
  | PauseTorrents (hashes : List String)
  | StopTorrents (hashes : List String)
  | ResumeTorrents (hashes : List String)
  | StartTorrents (hashes : List String)
  | ReannounceTorrents (hashes : List String)
  | DeleteTorrents (hashes : List String) (deleteData : Bool)
  | Sleep (seconds : Nat)
  | disk_Usage (path : String)
  deriving DecidableEq, Repr

/-! ## What the code takes from outside -/

/-- The libraries and sibling-package helpers the client code calls. -/
structure Runtime where
  /-- Go `float64`. -/
  F64 : Type
  /-- Go `float32`. -/
  F32 : Type
  /-- Go `time.Time`. -/
  Time : Type
  /-- A parsed `*version.Version` of `hashicorp/go-version`. -/
  Version : Type
  f64_add : F64 → F64 → F64
  f64_div : F64 → F64 → F64
  /-- Conversion `float64(x)` of a signed integer. -/
  f64_ofInt : Int → F64
  /-- Conversion `float64(x)` of a `uint64`. -/
  f64_ofUint64 : Nat → F64
  /-- Conversion `int64(x)` of a `float64`. -/
  int64_ofF64 : F64 → Int
  /-- Conversion `float32(x)` of a `float64`. -/
  f32_ofF64 : F64 → F32
  /-- Conversion `float32(x)` of a signed integer. -/
  f32_ofInt : Int → F32
  f32_div : F32 → F32 → F32
  /-- The expression `time.Since(x).Seconds()`; the clock is read after the
  events of the given trace. -/
  time_Since_Seconds : List Event → Time → F64
  /-- The method `Seconds()` of a `time.Duration` (nanoseconds). -/
  Duration_Seconds : Int → F64
  filepath_Join : String → String → String
  /-- The function `version.NewVersion`: a version, or an error and a nil version. -/
  NewVersion : String → Except Error Version
  /-- The method `LessThan` on two non-nil versions. -/
  LessThan : Version → Version → Bool
  /-- The function `disk.Usage` of `gopsutil`, reduced to the field `Free` of its
  result; the filesystem is read after the events of the given trace. -/
  disk_Usage : List Event → String → Except Error Nat
  /-- Helper `sliceutils.StringSliceContains` of this repository. -/
  StringSliceContains : List String → String → Bool → Bool
  /-- Helper `parseTrackerDomain` of package `client`. -/
  parseTrackerDomain : String → String

/-- The constant `humanize.GiByte`. -/
def humanize_GiByte : Int := 1073741824

/-- Conversion `int64(x)` of an integer: wraps to 64 bits, two's complement. -/
def int64 (x : Int) : Int := (x + 2 ^ 63) % 2 ^ 64 - 2 ^ 63

/-! ## Data model -/

/-- The record `config.Torrent`, with the fields `GetTorrents` fills in. -/
structure Torrent (G : Runtime) where
  Hash : String
  Name : String
  Path : String
  TotalBytes : Int
  DownloadedBytes : Int
  State : String
  Files : List String
  Downloaded : Bool
  Seeding : Bool
  Ratio : G.F32
  AddedSeconds : Int
  AddedHours : G.F32
  AddedDays : G.F32
  SeedingSeconds : Int
  SeedingHours : G.F32
  SeedingDays : G.F32
  Label : String
  Seeds : Int
  Peers : Int
  /-- The method value `c.GetFreeSpace`: called with the client's free-space
  cell as it is at the time of the call. -/
  FreeSpaceGB : G.F64 → G.F64
  FreeSpaceSet : Bool
  TrackerName : String
  TrackerStatus : String

/-- A compiled predicate `*vm.Program`, given by what `expr.Run` returns for it
on a torrent record. -/
abbrev Program (G : Runtime) := Torrent G → Value × Option Error

/-- The call `expr.Run(program, env)`. -/
def expr_Run {G : Runtime} (program : Program G) (env : Torrent G) : Value × Option Error :=
  program env

/-- The struct `expression.LabelExpression`. -/
structure LabelExpression (G : Runtime) where
  Name : String
  Updates : List (Program G)

/-- The struct `expression.Expressions`. -/
structure Expressions (G : Runtime) where
  Ignores : List (Program G)
  Removes : List (Program G)
  Labels : List (LabelExpression G)

/-! ## expression/check.go -/

/-- What a check returns, together with the predicates it ran, in order. -/
structure Checked (G : Runtime) where
  ret : Bool × Option Error
  evaluated : List (Program G)

/-- Records that `p` was run before the rest of the loop. -/
def Checked.after {G : Runtime} (p : Program G) (r : Checked G) : Checked G :=
  ⟨r.ret, p :: r.evaluated⟩

/-- The function `CheckTorrentSingleMatch`. -/
def CheckTorrentSingleMatch {G : Runtime} (t : Torrent G) : List (Program G) → Checked G
  | [] => ⟨(false, none), []⟩
  | expression :: exp =>
    match expr_Run expression t with
    | (_, some err) => ⟨(false, some (fmt_Errorf "check expression: " (some err))), [expression]⟩
    | (result, none) =>
      match result.assertBool with
      | (_, false) =>
        ⟨(false, some (fmt_Errorf "type assert expression result: " none)), [expression]⟩
      | (expResult, true) =>
        if expResult then ⟨(true, none), [expression]⟩
        else (CheckTorrentSingleMatch t exp).after expression

/-- The function `CheckTorrentAllMatch`. -/
def CheckTorrentAllMatch {G : Runtime} (t : Torrent G) : List (Program G) → Checked G
  | [] => ⟨(true, none), []⟩
  | expression :: exp =>
    match expr_Run expression t with
    | (_, some err) => ⟨(false, some (fmt_Errorf "check expression: " (some err))), [expression]⟩
    | (result, none) =>
      match result.assertBool with
      | (_, false) =>
        ⟨(false, some (fmt_Errorf "type assert expression result: " none)), [expression]⟩
      | (expResult, true) =>
        if !expResult then ⟨(false, none), [expression]⟩
        else (CheckTorrentAllMatch t exp).after expression

/-! ## The backend library `go-qbt` -/

/-- An item of `Torrent.GetList`, with the fields the client reads. -/
structure qbt_Torrent where
  Hash : String
  Name : String
  Size : Int
  State : String
  Category : String

/-- The result of `Torrent.GetProperties`, with the fields the client reads. -/
structure qbt_TorrentProperties (G : Runtime) where
  AdditionDate : G.Time
  SavePath : String
  TotalDownloaded : Int
  ShareRatio : G.F64
  /-- A `time.Duration`, in nanoseconds. -/
  SeedingTime : Int
  SeedsTotal : Int
  PeersTotal : Int

/-- An item of `Torrent.GetTrackers`, with the fields the client reads. -/
structure qbt_TorrentTracker where
  URL : String
  Message : String
  deriving DecidableEq, Repr

/-- An item of `Torrent.GetContents`, with the field the client reads. -/
structure qbt_TorrentContent where
  Name : String

/-- The backend handle `*qbittorrent.Client`: the answer to each call, given the
trace of the events before it. -/
structure qbt_Client (G : Runtime) where
  Application_GetAPIVersion : List Event → Except Error String
  Torrent_GetList : List Event → Except Error (List qbt_Torrent)
  Torrent_GetProperties : List Event → String → Except Error (qbt_TorrentProperties G)
  Torrent_GetTrackers : List Event → String → Except Error (List qbt_TorrentTracker)
  Torrent_GetContents : List Event → String → Except Error (List qbt_TorrentContent)
  Torrent_PauseTorrents : List Event → List String → Option Error
  Torrent_StopTorrents : List Event → List String → Option Error
  Torrent_ResumeTorrents : List Event → List String → Option Error
  Torrent_StartTorrents : List Event → List String → Option Error
  Torrent_ReannounceTorrents : List Event → List String → Option Error
  Torrent_DeleteTorrents : List Event → List String → Bool → Option Error

/-! ## client/qbittorrent.go -/

/-- The struct `QBittorrent` (its logger is not modelled). -/
structure QBittorrent (G : Runtime) where
  Url : Option String
  User : String
  Password : String
  clientType : String
  client : qbt_Client G
  freeSpaceGB : G.F64
  freeSpaceSet : Bool
  exp : Expressions G

/-- How a call ends: it returns, or it panics (a nil pointer is dereferenced). -/
inductive Outcome (α : Type) where
  | returned (a : α)
  | panicked
  deriving DecidableEq, Repr

/-- The function `strings.Contains`. -/
def strings_Contains (s substr : String) : Bool :=
  s.toList.tails.any (fun suffix => substr.toList.isPrefixOf suffix)

/-- The condition under which the tracker loop of `GetTorrents` skips a tracker. -/
def skipTracker (tracker : qbt_TorrentTracker) : Bool :=
  strings_Contains tracker.URL "[DHT]" || strings_Contains tracker.URL "[LSD]" ||
    strings_Contains tracker.URL "[PeX]"

/-- The tracker loop of `GetTorrents`: the final `(trackerName, trackerStatus)`. -/
def parseTrackerDetails (G : Runtime) : List qbt_TorrentTracker → String × String
  | [] => ("", "")
  | tracker :: ts =>
    if skipTracker tracker then parseTrackerDetails G ts
    else (G.parseTrackerDomain tracker.URL, tracker.Message)

/-- The method `GetFreeSpace`. -/
def QBittorrent.GetFreeSpace {G : Runtime} (c : QBittorrent G) (tr : List Event) :
    G.F64 × QBittorrent G × List Event :=
  (c.freeSpaceGB, c, tr)

/-- The method `AddFreeSpace`. -/
def QBittorrent.AddFreeSpace {G : Runtime} (c : QBittorrent G) (tr : List Event) (bytes : Int) :
    QBittorrent G × List Event :=
  ({ c with freeSpaceGB :=
      G.f64_add c.freeSpaceGB (G.f64_div (G.f64_ofInt bytes) (G.f64_ofInt humanize_GiByte)) }, tr)

/-- The method `GetCurrentFreeSpace`. -/
def QBittorrent.GetCurrentFreeSpace {G : Runtime} (c : QBittorrent G) (tr : List Event)
    (path : String) : (Nat × Option Error) × QBittorrent G × List Event :=
  match G.disk_Usage tr path with
  | .error err => ((0, some (fmt_Errorf "get main data: " (some err))), c, tr ++ [Event.disk_Usage path])
  | .ok free =>
    ((free, none),
      { c with
        freeSpaceGB := G.f64_div (G.f64_ofUint64 free) (G.f64_ofInt humanize_GiByte)
        freeSpaceSet := true },
      tr ++ [Event.disk_Usage path])

/-- The body of the loop of `GetTorrents` after the three detail calls: the
record built for list item `t`; `now` is the trace at the clock reading. -/
def buildTorrent {G : Runtime} (c : QBittorrent G) (now : List Event) (t : qbt_Torrent)
    (td : qbt_TorrentProperties G) (ts : List qbt_TorrentTracker)
    (tf : List qbt_TorrentContent) : Torrent G :=
  let tracker := parseTrackerDetails G ts
  let addedTimeSecs := G.int64_ofF64 (G.time_Since_Seconds now td.AdditionDate)
  let files := tf.map (fun f => G.filepath_Join td.SavePath f.Name)
  { Hash := t.Hash
    Name := t.Name
    Path := td.SavePath
    TotalBytes := int64 t.Size
    DownloadedBytes := int64 td.TotalDownloaded
    State := t.State
    Files := files
    Downloaded := !G.StringSliceContains
      ["downloading", "stalledDL", "queuedDL", "pausedDL", "stoppedDL", "checkingDL"] t.State true
    Seeding := G.StringSliceContains ["uploading", "stalledUP"] t.State true
    Ratio := G.f32_ofF64 td.ShareRatio
    AddedSeconds := addedTimeSecs
    AddedHours := G.f32_div (G.f32_div (G.f32_ofInt addedTimeSecs) (G.f32_ofInt 60)) (G.f32_ofInt 60)
    AddedDays := G.f32_div (G.f32_div (G.f32_div (G.f32_ofInt addedTimeSecs) (G.f32_ofInt 60))
      (G.f32_ofInt 60)) (G.f32_ofInt 24)
    SeedingSeconds := G.int64_ofF64 (G.Duration_Seconds td.SeedingTime)
    SeedingHours := G.f32_div (G.f32_div (G.f32_ofF64 (G.Duration_Seconds td.SeedingTime))
      (G.f32_ofInt 60)) (G.f32_ofInt 60)
    SeedingDays := G.f32_div (G.f32_div (G.f32_div (G.f32_ofF64 (G.Duration_Seconds td.SeedingTime))
      (G.f32_ofInt 60)) (G.f32_ofInt 60)) (G.f32_ofInt 24)
    Label := t.Category
    Seeds := int64 td.SeedsTotal
    Peers := int64 td.PeersTotal
    FreeSpaceGB := fun freeSpaceGB => freeSpaceGB
    FreeSpaceSet := c.freeSpaceSet
    TrackerName := tracker.1
    TrackerStatus := tracker.2 }

/-- The map `map[string]config.Torrent`. -/
abbrev TorrentMap (G : Runtime) := String → Option (Torrent G)

/-- The loop of `GetTorrents` over the listed torrents. -/
def GetTorrents_loop {G : Runtime} (c : QBittorrent G) :
    List qbt_Torrent → TorrentMap G → List Event →
      (Option (TorrentMap G) × Option Error) × List Event
  | [], torrents, tr => ((some torrents, none), tr)
  | t :: rest, torrents, tr =>
    match c.client.Torrent_GetProperties tr t.Hash with
    | .error err =>
      ((none, some (fmt_Errorf ("get torrent properties: " ++ t.Hash ++ ": ") (some err))),
        tr ++ [Event.GetProperties t.Hash])
    | .ok td =>
      let tr1 := tr ++ [Event.GetProperties t.Hash]
      match c.client.Torrent_GetTrackers tr1 t.Hash with
      | .error err =>
        ((none, some (fmt_Errorf ("get torrent trackers: " ++ t.Hash ++ ": ") (some err))),
          tr1 ++ [Event.GetTrackers t.Hash])
      | .ok ts =>
        let tr2 := tr1 ++ [Event.GetTrackers t.Hash]
        match c.client.Torrent_GetContents tr2 t.Hash with
        | .error err =>
          ((none, some (fmt_Errorf ("get torrent files: " ++ t.Hash ++ ": ") (some err))),
            tr2 ++ [Event.GetContents t.Hash])
        | .ok tf =>
          let tr3 := tr2 ++ [Event.GetContents t.Hash]
          let torrent := buildTorrent c tr3 t td ts tf
          GetTorrents_loop c rest (fun h => if h = t.Hash then some torrent else torrents h) tr3

/-- The method `GetTorrents`. -/
def QBittorrent.GetTorrents {G : Runtime} (c : QBittorrent G) (tr : List Event) :
    (Option (TorrentMap G) × Option Error) × List Event :=
  match c.client.Torrent_GetList tr with
  | .error err => ((none, some (fmt_Errorf "get torrents: " (some err))), tr ++ [Event.GetList])
  | .ok t => GetTorrents_loop c t (fun _ => none) (tr ++ [Event.GetList])

/-- The method `RemoveTorrent`; `tr` is the trace before the call. -/
def QBittorrent.RemoveTorrent {G : Runtime} (c : QBittorrent G) (tr : List Event) (hash : String)
    (deleteData : Bool) : Outcome (Bool × Option Error) × List Event :=
  let tr1 := tr ++ [Event.GetAPIVersion]
  match c.client.Application_GetAPIVersion tr with
  | .error err => (.returned (false, some (fmt_Errorf "get api version: " (some err))), tr1)
  | .ok apiVersionStr =>
  match G.NewVersion apiVersionStr with
  | .error err => (.returned (false, some (fmt_Errorf "parse api version: " (some err))), tr1)
  | .ok apiVersion =>
  match G.NewVersion "2.11" with
  | .error _ => (.panicked, tr1)
  | .ok cutoffVersion =>
  let stop : Option Error × List Event :=
    if G.LessThan apiVersion cutoffVersion then
      (c.client.Torrent_PauseTorrents tr1 [hash], tr1 ++ [Event.PauseTorrents [hash]])
    else
      (c.client.Torrent_StopTorrents tr1 [hash], tr1 ++ [Event.StopTorrents [hash]])
  match stop with
  | (some err, tr2) =>
    (.returned (false, some (fmt_Errorf ("stop torrent: " ++ hash ++ ": ") (some err))), tr2)
  | (none, tr2) =>
  let tr3 := tr2 ++ [Event.Sleep 1]
  let resume : Option Error × String × List Event :=
    if G.LessThan apiVersion cutoffVersion then
      (c.client.Torrent_ResumeTorrents tr3 [hash], "resume torrent: ",
        tr3 ++ [Event.ResumeTorrents [hash]])
    else
      (c.client.Torrent_StartTorrents tr3 [hash], "start torrent: ",
        tr3 ++ [Event.StartTorrents [hash]])
  match resume with
  | (some err, step, tr4) =>
    (.returned (false, some (fmt_Errorf (step ++ hash ++ ": ") (some err))), tr4)
  | (none, _, tr4) =>
  let tr5 := tr4 ++ [Event.Sleep 2]
  let tr6 := tr5 ++ [Event.ReannounceTorrents [hash]]
  match c.client.Torrent_ReannounceTorrents tr5 [hash] with
  | some err =>
    (.returned (false, some (fmt_Errorf ("re-announce torrent: " ++ hash ++ ": ") (some err))), tr6)
  | none =>
  let tr7 := tr6 ++ [Event.Sleep 2]
  let tr8 := tr7 ++ [Event.DeleteTorrents [hash] deleteData]
  match c.client.Torrent_DeleteTorrents tr7 [hash] deleteData with
  | some err =>
    (.returned (false, some (fmt_Errorf ("delete torrent: " ++ hash ++ ": ") (some err))), tr8)
  | none => (.returned (true, none), tr8)

/-! ### Filters -/

/-- The method `ShouldIgnore`. -/
def QBittorrent.ShouldIgnore {G : Runtime} (c : QBittorrent G) (t : Torrent G) : Checked G :=
  match CheckTorrentSingleMatch t c.exp.Ignores with
  | ⟨(_, some err), ev⟩ =>
    ⟨(true, some (fmt_Errorf ("check ignore expression: " ++ t.Hash ++ ": ") (some err))), ev⟩
  | ⟨(m, none), ev⟩ => ⟨(m, none), ev⟩

/-- The method `ShouldRemove`. -/
def QBittorrent.ShouldRemove {G : Runtime} (c : QBittorrent G) (t : Torrent G) : Checked G :=
  match CheckTorrentSingleMatch t c.exp.Removes with
  | ⟨(_, some err), ev⟩ =>
    ⟨(false, some (fmt_Errorf ("check remove expression: " ++ t.Hash ++ ": ") (some err))), ev⟩
  | ⟨(m, none), ev⟩ => ⟨(m, none), ev⟩

/-- What `ShouldRelabel` returns, together with the predicates it ran, in order. -/
structure Relabel (G : Runtime) where
  ret : String × Bool × Option Error
  evaluated : List (Program G)

/-- The loop of `ShouldRelabel` over the label rules. -/
def ShouldRelabel_loop {G : Runtime} (t : Torrent G) : List (LabelExpression G) → Relabel G
  | [] => ⟨("", false, none), []⟩
  | label :: labels =>
    match CheckTorrentAllMatch t label.Updates with
    | ⟨(_, some err), ev⟩ =>
      ⟨("", false, some (fmt_Errorf ("check update expression: " ++ t.Hash ++ ": ") (some err))), ev⟩
    | ⟨(m, none), ev⟩ =>
      if !m then
        let r := ShouldRelabel_loop t labels
        ⟨r.ret, ev ++ r.evaluated⟩
      else ⟨(label.Name, true, none), ev⟩

/-- The method `ShouldRelabel`. -/
def QBittorrent.ShouldRelabel {G : Runtime} (c : QBittorrent G) (t : Torrent G) : Relabel G :=
  ShouldRelabel_loop t c.exp.Labels

/-! ## Vocabulary of the statements

The definitions of this section are not translations of the source: they are the
terms in which the statements below describe what the source does. -/

/-- A predicate fails on a record: its run does not yield a boolean without fault. -/
def Fails {G : Runtime} (p : Program G) (t : Torrent G) : Prop :=
  ¬ ∃ b, expr_Run p t = (Value.bool b, none)

/-- The stop command for a version: `PauseTorrents` below the cutoff,
`StopTorrents` from the cutoff on. -/
def stopEvent (below : Bool) (hash : String) : Event :=
  if below then .PauseTorrents [hash] else .StopTorrents [hash]

/-- The resume command for a version: `ResumeTorrents` below the cutoff,
`StartTorrents` from the cutoff on. -/
def resumeEvent (below : Bool) (hash : String) : Event :=
  if below then .ResumeTorrents [hash] else .StartTorrents [hash]

/-- The text that names the resume step in an error. -/
def resumeStep (below : Bool) : String :=
  if below then "resume torrent: " else "start torrent: "

/-- The answer of the backend to a command issued after the trace `tr`. -/
def qbt_Client.answer {G : Runtime} (cl : qbt_Client G) (tr : List Event) : Event → Option Error
  | .PauseTorrents hs => cl.Torrent_PauseTorrents tr hs
  | .StopTorrents hs => cl.Torrent_StopTorrents tr hs
  | .ResumeTorrents hs => cl.Torrent_ResumeTorrents tr hs
  | .StartTorrents hs => cl.Torrent_StartTorrents tr hs
  | .ReannounceTorrents hs => cl.Torrent_ReannounceTorrents tr hs
  | .DeleteTorrents hs d => cl.Torrent_DeleteTorrents tr hs d
  | _ => none

/-- The run of `RemoveTorrent` once the version is known to lie below the cutoff
or not: the four commands in order, each issued only if the one before succeeded. -/
def removalRun {G : Runtime} (c : QBittorrent G) (tr : List Event) (below : Bool) (hash : String)
    (deleteData : Bool) : Outcome (Bool × Option Error) × List Event :=
  let t1 := tr ++ [Event.GetAPIVersion]
  let t2 := t1 ++ [stopEvent below hash, Event.Sleep 1]
  let t3 := t2 ++ [resumeEvent below hash, Event.Sleep 2]
  let t4 := t3 ++ [Event.ReannounceTorrents [hash], Event.Sleep 2]
  match c.client.answer t1 (stopEvent below hash) with
  | some e =>
    (.returned (false, some (fmt_Errorf ("stop torrent: " ++ hash ++ ": ") (some e))),
      t1 ++ [stopEvent below hash])
  | none =>
  match c.client.answer t2 (resumeEvent below hash) with
  | some e =>
    (.returned (false, some (fmt_Errorf (resumeStep below ++ hash ++ ": ") (some e))),
      t2 ++ [resumeEvent below hash])
  | none =>
  match c.client.answer t3 (Event.ReannounceTorrents [hash]) with
  | some e =>
    (.returned (false, some (fmt_Errorf ("re-announce torrent: " ++ hash ++ ": ") (some e))),
      t3 ++ [Event.ReannounceTorrents [hash]])
  | none =>
  match c.client.answer t4 (Event.DeleteTorrents [hash] deleteData) with
  | some e =>
    (.returned (false, some (fmt_Errorf ("delete torrent: " ++ hash ++ ": ") (some e))),
      t4 ++ [Event.DeleteTorrents [hash] deleteData])
  | none => (.returned (true, none), t4 ++ [Event.DeleteTorrents [hash] deleteData])

/-- The first tracker, in the order given, whose URL contains none of the
pseudo-tracker markers. -/
def firstRealTracker (ts : List qbt_TorrentTracker) : Option qbt_TorrentTracker :=
  ts.find? (fun tracker =>
    !(strings_Contains tracker.URL "[DHT]" || strings_Contains tracker.URL "[LSD]" ||
      strings_Contains tracker.URL "[PeX]"))

/-- The tracker fields prescribed for a tracker list: those of its first real
tracker, or two empty strings. -/
def trackerFields (G : Runtime) (ts : List qbt_TorrentTracker) : String × String :=
  match firstRealTracker ts with
  | some tracker => (G.parseTrackerDomain tracker.URL, tracker.Message)
  | none => ("", "")

/-! ## A concrete runtime, backends and records, for evaluating the model -/

/-- Splits a text at each dot. -/
def splitDots : List Char → List (List Char)
  | [] => [[]]
  | c :: cs =>
    if c = '.' then [] :: splitDots cs
    else
      match splitDots cs with
      | [] => [[c]]
      | seg :: segs => (c :: seg) :: segs

/-- A decimal segment of a version, which must fit an `int64`. -/
def parseSegment (cs : List Char) : Option Nat :=
  if cs ≠ [] ∧ cs.all Char.isDigit then
    let n := cs.foldl (fun n c => 10 * n + (c.toNat - 48)) 0
    if n < 2 ^ 63 then some n else none
  else none

/-- Model of `version.NewVersion` of `hashicorp/go-version` on plain
dotted-decimal texts such as `2.11` or `2.8.19`, the form the backend reports:
the segments, padded with zeros to three.  Texts of any other form (a leading
`v`, a pre-release or metadata suffix) are outside this model and reported as
malformed. -/
def dotted_NewVersion (v : String) : Except Error (List Nat) :=
  match (splitDots v.toList).mapM parseSegment with
  | some segments => .ok (segments ++ List.replicate (3 - segments.length) 0)
  | none => .error (.errorString ("Malformed version: " ++ v))

/-- Model of `Compare` of `hashicorp/go-version` on versions without pre-release:
segment by segment; when one version has fewer segments, the rest of the other
decides, being all zero or not. -/
def dotted_Compare : List Nat → List Nat → Ordering
  | [], bs => if bs.all (fun b => b == 0) then .eq else .lt
  | a :: as, [] => if (a :: as).all (fun x => x == 0) then .eq else .gt
  | a :: as, b :: bs => if a = b then dotted_Compare as bs else if a < b then .lt else .gt

/-- Modelled from the spec: `parseTrackerDomain` is not among the source files;
the spec calls its result the domain of the tracker URL.  This stand-in returns
the host, the text between `://` and the next `/` or `:`. -/
def hostOfURL (url : String) : String :=
  let rec afterScheme : List Char → List Char
    | ':' :: '/' :: '/' :: rest => rest
    | _ :: rest => afterScheme rest
    | [] => []
  String.mk ((afterScheme url.toList).takeWhile (fun c => c ≠ '/' ∧ c ≠ ':'))

/-- Modelled from the spec: `sliceutils.StringSliceContains` is not among the
source files; this stand-in tests membership, ignoring case when asked to. -/
def sliceContains (slice : List String) (s : String) (caseInsensitive : Bool) : Bool :=
  slice.any (fun x => if caseInsensitive then x.toLower == s.toLower else x == s)

/-- A runtime for evaluating the model: exact rational arithmetic stands in for
the two float types, the clock stands still, and the disk has 500 GiB free. -/
def demoRuntime : Runtime where
  F64 := Rat
  F32 := Rat
  Time := Int
  Version := List Nat
  f64_add := fun a b => a + b
  f64_div := fun a b => a / b
  f64_ofInt := fun i => i
  f64_ofUint64 := fun n => n
  int64_ofF64 := fun q => Int.tdiv q.num q.den
  f32_ofF64 := fun q => q
  f32_ofInt := fun i => i
  f32_div := fun a b => a / b
  time_Since_Seconds := fun _ x => ((1700000000 - x : Int) : Rat)
  Duration_Seconds := fun ns => (ns : Rat) / 1000000000
  filepath_Join := fun dir name => dir ++ "/" ++ name
  NewVersion := dotted_NewVersion
  LessThan := fun a b => dotted_Compare a b == .lt
  disk_Usage := fun _ _ => .ok (500 * 1073741824)
  StringSliceContains := sliceContains
  parseTrackerDomain := hostOfURL

/-- A seeding torrent with label `tv`. -/
def demoTorrent : Torrent demoRuntime where
  Hash := "c0ffee"
  Name := "example"
  Path := "/data"
  TotalBytes := 1000
  DownloadedBytes := 1000
  State := "uploading"
  Files := ["/data/example.bin"]
  Downloaded := true
  Seeding := true
  Ratio := (2 : Rat)
  AddedSeconds := 7200
  AddedHours := (2 : Rat)
  AddedDays := (1 / 12 : Rat)
  SeedingSeconds := 3600
  SeedingHours := (1 : Rat)
  SeedingDays := (1 / 24 : Rat)
  Label := "tv"
  Seeds := 5
  Peers := 3
  FreeSpaceGB := fun freeSpaceGB => freeSpaceGB
  FreeSpaceSet := false
  TrackerName := "real.tracker"
  TrackerStatus := ""

/-- The predicate `Seeding`. -/
def pSeeding : Program demoRuntime := fun t => (Value.bool t.Seeding, none)

/-- The predicate `Label == l`. -/
def pLabelIs (l : String) : Program demoRuntime := fun t => (Value.bool (t.Label == l), none)

/-- The predicate `Seeds > n`. -/
def pSeedsAbove (n : Int) : Program demoRuntime := fun t => (Value.bool (decide (n < t.Seeds)), none)

/-- The expression `Seeds`, whose result is an integer, not a boolean. -/
def pSeeds : Program demoRuntime := fun t => (Value.int t.Seeds, none)

/-- An expression whose evaluation faults. -/
def pFault : Program demoRuntime :=
  fun _ => (Value.nil, some (Error.errorString "cannot fetch Missing from config.Torrent"))

/-- A backend that reports the given API version and whose commands all succeed,
except those that `fails` names, which return the error `boom`. -/
def demoClient (apiVersion : Except Error String) (fails : Event → Bool) : qbt_Client demoRuntime where
  Application_GetAPIVersion := fun _ => apiVersion
  Torrent_GetList := fun _ => .ok []
  Torrent_GetProperties := fun _ _ => .error (.errorString "not found")
  Torrent_GetTrackers := fun _ _ => .ok []
  Torrent_GetContents := fun _ _ => .ok []
  Torrent_PauseTorrents := fun _ hs =>
    if fails (.PauseTorrents hs) then some (.errorString "boom") else none
  Torrent_StopTorrents := fun _ hs =>
    if fails (.StopTorrents hs) then some (.errorString "boom") else none
  Torrent_ResumeTorrents := fun _ hs =>
    if fails (.ResumeTorrents hs) then some (.errorString "boom") else none
  Torrent_StartTorrents := fun _ hs =>
    if fails (.StartTorrents hs) then some (.errorString "boom") else none
  Torrent_ReannounceTorrents := fun _ hs =>
    if fails (.ReannounceTorrents hs) then some (.errorString "boom") else none
  Torrent_DeleteTorrents := fun _ hs d =>
    if fails (.DeleteTorrents hs d) then some (.errorString "boom") else none

/-- The commands a backend from `2.11` on no longer accepts. -/
def rejectsPauseResume : Event → Bool
  | .PauseTorrents _ => true
  | .ResumeTorrents _ => true
  | _ => false

/-- The commands a backend before `2.11` does not know. -/
def rejectsStopStart : Event → Bool
  | .StopTorrents _ => true
  | .StartTorrents _ => true
  | _ => false

/-- A client over `demoClient` with the given rules. -/
def demoQBittorrent (apiVersion : Except Error String) (fails : Event → Bool)
    (exp : Expressions demoRuntime) : QBittorrent demoRuntime where
  Url := some "http://localhost:8080"
  User := "admin"
  Password := "adminadmin"
  clientType := "qBittorrent"
  client := demoClient apiVersion fails
  freeSpaceGB := (0 : Rat)
  freeSpaceSet := false
  exp := exp

/-- Rules for the witnesses of the relabel claims: `movies` needs label `movies`
and then a faulting predicate, `seeded` needs seeding and label `tv`, `any` has no
conditions, `broken` has a faulting one. -/
def demoLabels : List (LabelExpression demoRuntime) :=
  [⟨"movies", [pLabelIs "movies", pFault]⟩, ⟨"seeded", [pSeeding, pLabelIs "tv"]⟩,
    ⟨"any", []⟩, ⟨"broken", [pFault]⟩]

/-- Rules for the witnesses of the failure claims: every group reaches the
integer-valued expression `Seeds`. -/
def demoNonBoolean : Expressions demoRuntime :=
  ⟨[pLabelIs "movies", pSeeds], [pSeeds, pSeeding], [⟨"seeded", [pSeeding, pSeeds]⟩]⟩

/-- Rules for the witness of the fail-safe claim: every group reaches a faulting
predicate, after a predicate that alone would have decided otherwise. -/
def demoFaulting : Expressions demoRuntime :=
  ⟨[pLabelIs "movies", pFault], [pFault, pSeeding], [⟨"seeded", [pSeeding, pFault]⟩]⟩

/-- A backend that lists one torrent, with a DHT pseudo-tracker in front of a
real tracker. -/
def demoListing : qbt_Client demoRuntime where
  Application_GetAPIVersion := fun _ => .ok "2.11"
  Torrent_GetList := fun _ => .ok [⟨"c0ffee", "example", 1000, "uploading", "tv"⟩]
  Torrent_GetProperties := fun _ _ =>
    .ok ⟨(1699990000 : Int), "/data", 1000, (2 : Rat), 3600000000000, 5, 3⟩
  Torrent_GetTrackers := fun _ _ =>
    .ok [⟨"udp://tracker.example:80[DHT]", ""⟩, ⟨"http://real.tracker/announce", "Working"⟩]
  Torrent_GetContents := fun _ _ => .ok [⟨"example.bin"⟩]
  Torrent_PauseTorrents := fun _ _ => none
  Torrent_StopTorrents := fun _ _ => none
  Torrent_ResumeTorrents := fun _ _ => none
  Torrent_StartTorrents := fun _ _ => none
  Torrent_ReannounceTorrents := fun _ _ => none
  Torrent_DeleteTorrents := fun _ _ _ => none

/-- A client over `demoListing`, without rules. -/
def demoLister : QBittorrent demoRuntime where
  Url := some "http://localhost:8080"
  User := "admin"
  Password := "adminadmin"
  clientType := "qBittorrent"
  client := demoListing
  freeSpaceGB := (0 : Rat)
  freeSpaceSet := false
  exp := ⟨[], [], []⟩

/-! ## IEEE 754 arithmetic, and a runtime that computes with it -/

/-- A value of an IEEE 754 binary floating-point format: a finite number (the
positive zero is `finite 0`), the negative zero, an infinity or a NaN.  A finite
value is well formed when it is a number of the format. -/
inductive IEEE where
  | finite (q : Rat)
  | negZero
  | inf (neg : Bool)
  | nan
  deriving DecidableEq, Repr

/-- A binary format: the precision in bits and the least and greatest exponent of
a normal number. -/
structure Format where
  prec : Nat
  emin : Int
  emax : Int

/-- The format of Go `float64`. -/
def binary64 : Format := ⟨53, -1022, 1023⟩

/-- The format of Go `float32`. -/
def binary32 : Format := ⟨24, -126, 127⟩

/-- Rounds to the nearest integer, a tie going to the even one. -/
def roundHalfEven (y : Rat) : Int :=
  if y - ⌊y⌋ < 1 / 2 then ⌊y⌋
  else if 1 / 2 < y - ⌊y⌋ then ⌊y⌋ + 1
  else if ⌊y⌋ % 2 = 0 then ⌊y⌋ else ⌊y⌋ + 1

/-- The exponent of the unit in the last place of the numbers of a format around a
positive magnitude `x`; below the least normal number it stays that of the
subnormal numbers. -/
def Format.quantum (f : Format) (x : Rat) : Int :=
  max (Int.log 2 x) f.emin - ((f.prec : Int) - 1)

/-- Rounding of an exact result to a format, to nearest, ties to even: a result
beyond the largest finite number becomes an infinity, and a nonzero result that
rounds to zero keeps its sign. -/
def IEEE.round (f : Format) (q : Rat) : IEEE :=
  if q = 0 then .finite 0
  else
    let r : Rat := (roundHalfEven (|q| / 2 ^ f.quantum |q|) : Rat) * 2 ^ f.quantum |q|
    if (2 : Rat) ^ (f.emax + 1) ≤ r then .inf (decide (q < 0))
    else if r = 0 then (if q < 0 then .negZero else .finite 0)
    else .finite (if q < 0 then -r else r)

/-- A zero of the given sign. -/
def IEEE.zero (neg : Bool) : IEEE :=
  if neg then .negZero else .finite 0

/-- The sum of two values of a format. -/
def IEEE.add (f : Format) : IEEE → IEEE → IEEE
  | .nan, _ => .nan
  | _, .nan => .nan
  | .inf a, .inf b => if a = b then .inf a else .nan
  | .inf a, _ => .inf a
  | _, .inf b => .inf b
  | .negZero, .negZero => .negZero
  | .negZero, .finite b => .finite b
  | .finite a, .negZero => .finite a
  | .finite a, .finite b => IEEE.round f (a + b)

/-- The quotient of two values of a format. -/
def IEEE.div (f : Format) : IEEE → IEEE → IEEE
  | .nan, _ => .nan
  | _, .nan => .nan
  | .inf _, .inf _ => .nan
  | .inf a, .finite b => .inf (xor a (decide (b < 0)))
  | .inf a, .negZero => .inf (!a)
  | .finite a, .inf b => IEEE.zero (xor (decide (a < 0)) b)
  | .negZero, .inf b => IEEE.zero (!b)
  | .negZero, .negZero => .nan
  | .negZero, .finite b => if b = 0 then .nan else IEEE.zero (!decide (b < 0))
  | .finite a, .negZero => if a = 0 then .nan else .inf (!decide (a < 0))
  | .finite a, .finite b =>
    if b = 0 then (if a = 0 then .nan else .inf (decide (a < 0)))
    else if a = 0 then IEEE.zero (decide (b < 0))
    else IEEE.round f (a / b)

/-- Conversion of a value to another format. -/
def IEEE.convert (f : Format) : IEEE → IEEE
  | .finite q => IEEE.round f q
  | x => x

/-- Conversion `int64(x)` of a float: the fraction is dropped; a value that does
not fit, an infinity or a NaN gives the least `int64`, as on amd64. -/
def IEEE.toInt64 : IEEE → Int
  | .finite q =>
    let t : Int := if 0 ≤ q then ⌊q⌋ else ⌈q⌉
    if -2 ^ 63 ≤ t ∧ t < 2 ^ 63 then t else -2 ^ 63
  | .negZero => 0
  | _ => -2 ^ 63

/-- The method `Seconds()` of a `time.Duration` of `d` nanoseconds: the whole
seconds plus the remaining nanoseconds over `1e9`, in `float64`. -/
def Duration_Seconds (d : Int) : IEEE :=
  IEEE.add binary64 (IEEE.round binary64 (Int.tdiv d 1000000000))
    (IEEE.div binary64 (IEEE.round binary64 (Int.tmod d 1000000000))
      (IEEE.round binary64 1000000000))

/-- The runtime with IEEE 754 arithmetic: `float64` is binary64 and `float32` is
binary32, every operation rounding to nearest, ties to even.  The clock, the
version library, the disk and the helpers are those of `demoRuntime`. -/
def ieeeRuntime : Runtime where
  F64 := IEEE
  F32 := IEEE
  Time := Int
  Version := List Nat
  f64_add := IEEE.add binary64
  f64_div := IEEE.div binary64
  f64_ofInt := fun i => IEEE.round binary64 i
  f64_ofUint64 := fun n => IEEE.round binary64 n
  int64_ofF64 := IEEE.toInt64
  f32_ofF64 := IEEE.convert binary32
  f32_ofInt := fun i => IEEE.round binary32 i
  f32_div := IEEE.div binary32
  time_Since_Seconds := fun _ x => Duration_Seconds ((1700000000 - x) * 1000000000)
  Duration_Seconds := Duration_Seconds
  filepath_Join := fun dir name => dir ++ "/" ++ name
  NewVersion := dotted_NewVersion
  LessThan := fun a b => dotted_Compare a b == .lt
  disk_Usage := fun _ _ => .ok (500 * 1073741824)
  StringSliceContains := sliceContains
  parseTrackerDomain := hostOfURL

/-- A backend without torrents whose commands all succeed. -/
def ieeeClient : qbt_Client ieeeRuntime where
  Application_GetAPIVersion := fun _ => .ok "2.11"
  Torrent_GetList := fun _ => .ok []
  Torrent_GetProperties := fun _ _ => .error (.errorString "not found")
  Torrent_GetTrackers := fun _ _ => .ok []
  Torrent_GetContents := fun _ _ => .ok []
  Torrent_PauseTorrents := fun _ _ => none
  Torrent_StopTorrents := fun _ _ => none
  Torrent_ResumeTorrents := fun _ _ => none
  Torrent_StartTorrents := fun _ _ => none
  Torrent_ReannounceTorrents := fun _ _ => none
  Torrent_DeleteTorrents := fun _ _ _ => none

/-- A client with IEEE 754 arithmetic whose free-space value is `g`. -/
def ieeeQBittorrent (g : IEEE) (set : Bool) : QBittorrent ieeeRuntime where
  Url := some "http://localhost:8080"
  User := "admin"
  Password := "adminadmin"
  clientType := "qBittorrent"
  client := ieeeClient
  freeSpaceGB := g
  freeSpaceSet := set
  exp := ⟨[], [], []⟩

/-- A rational is a number of the format: an integer of at most `prec` bits times
a power of two within the exponent range. -/
def Format.Representable (f : Format) (q : Rat) : Prop :=
  ∃ m e : Int, |m| < 2 ^ f.prec ∧ f.emin - ((f.prec : Int) - 1) ≤ e ∧
    e ≤ f.emax - ((f.prec : Int) - 1) ∧ q = m * 2 ^ e

/-! ## Single-step lemmas for the two checks -/

section Steps

variable {G : Runtime} (t : Torrent G) (p : Program G) (P : List (Program G))

theorem single_cons_true (h : expr_Run p t = (Value.bool true, none)) :
    CheckTorrentSingleMatch t (p :: P) = ⟨(true, none), [p]⟩ := by
  simp [CheckTorrentSingleMatch, h, Value.assertBool]

theorem single_cons_false (h : expr_Run p t = (Value.bool false, none)) :
    CheckTorrentSingleMatch t (p :: P) = (CheckTorrentSingleMatch t P).after p := by
  simp [CheckTorrentSingleMatch, h, Value.assertBool]

theorem single_cons_fault (v : Value) (e : Error) (h : expr_Run p t = (v, some e)) :
    CheckTorrentSingleMatch t (p :: P) =
      ⟨(false, some (fmt_Errorf "check expression: " (some e))), [p]⟩ := by
  simp [CheckTorrentSingleMatch, h]

theorem single_cons_nonbool (v : Value) (hv : ∀ b, v ≠ Value.bool b)
    (h : expr_Run p t = (v, none)) :
    CheckTorrentSingleMatch t (p :: P) =
      ⟨(false, some (fmt_Errorf "type assert expression result: " none)), [p]⟩ := by
  cases v with
  | bool b => exact absurd rfl (hv b)
  | nil => simp [CheckTorrentSingleMatch, h, Value.assertBool]
  | int i => simp [CheckTorrentSingleMatch, h, Value.assertBool]
  | str s => simp [CheckTorrentSingleMatch, h, Value.assertBool]

theorem all_cons_true (h : expr_Run p t = (Value.bool true, none)) :
    CheckTorrentAllMatch t (p :: P) = (CheckTorrentAllMatch t P).after p := by
  simp [CheckTorrentAllMatch, h, Value.assertBool]

theorem all_cons_false (h : expr_Run p t = (Value.bool false, none)) :
    CheckTorrentAllMatch t (p :: P) = ⟨(false, none), [p]⟩ := by
  simp [CheckTorrentAllMatch, h, Value.assertBool]

theorem all_cons_fault (v : Value) (e : Error) (h : expr_Run p t = (v, some e)) :
    CheckTorrentAllMatch t (p :: P) =
      ⟨(false, some (fmt_Errorf "check expression: " (some e))), [p]⟩ := by
  simp [CheckTorrentAllMatch, h]

theorem all_cons_nonbool (v : Value) (hv : ∀ b, v ≠ Value.bool b)
    (h : expr_Run p t = (v, none)) :
    CheckTorrentAllMatch t (p :: P) =
      ⟨(false, some (fmt_Errorf "type assert expression result: " none)), [p]⟩ := by
  cases v with
  | bool b => exact absurd rfl (hv b)
  | nil => simp [CheckTorrentAllMatch, h, Value.assertBool]
  | int i => simp [CheckTorrentAllMatch, h, Value.assertBool]
  | str s => simp [CheckTorrentAllMatch, h, Value.assertBool]

/-- Every run of a predicate ends in exactly one of four ways. -/
theorem run_cases :
    expr_Run p t = (Value.bool true, none) ∨ expr_Run p t = (Value.bool false, none) ∨
      (∃ v e, expr_Run p t = (v, some e)) ∨
      (∃ v, (∀ b, v ≠ Value.bool b) ∧ expr_Run p t = (v, none)) := by
  rcases hr : expr_Run p t with ⟨v, _ | e⟩
  · cases v with
    | bool b =>
      cases b
      · exact Or.inr (Or.inl rfl)
      · exact Or.inl rfl
    | nil => exact Or.inr (Or.inr (Or.inr ⟨_, by simp, rfl⟩))
    | int i => exact Or.inr (Or.inr (Or.inr ⟨_, by simp, rfl⟩))
    | str s => exact Or.inr (Or.inr (Or.inr ⟨_, by simp, rfl⟩))
  · exact Or.inr (Or.inr (Or.inl ⟨v, e, rfl⟩))

end Steps

/-! ## Whole-loop lemmas -/

section Loops

variable {G : Runtime} (t : Torrent G)

theorem single_prefix_false (pre rest : List (Program G))
    (h : ∀ q ∈ pre, expr_Run q t = (Value.bool false, none)) :
    CheckTorrentSingleMatch t (pre ++ rest) =
      ⟨(CheckTorrentSingleMatch t rest).ret, pre ++ (CheckTorrentSingleMatch t rest).evaluated⟩ := by
  induction pre with
  | nil => rfl
  | cons q pre ih =>
    have hq := h q (List.mem_cons_self q pre)
    have ih2 := ih (fun x hx => h x (List.mem_cons_of_mem q hx))
    rw [List.cons_append, single_cons_false t q _ hq, ih2]
    rfl

theorem all_prefix_true (pre rest : List (Program G))
    (h : ∀ q ∈ pre, expr_Run q t = (Value.bool true, none)) :
    CheckTorrentAllMatch t (pre ++ rest) =
      ⟨(CheckTorrentAllMatch t rest).ret, pre ++ (CheckTorrentAllMatch t rest).evaluated⟩ := by
  induction pre with
  | nil => rfl
  | cons q pre ih =>
    have hq := h q (List.mem_cons_self q pre)
    have ih2 := ih (fun x hx => h x (List.mem_cons_of_mem q hx))
    rw [List.cons_append, all_cons_true t q _ hq, ih2]
    rfl

theorem fails_of_fault (p : Program G) (v : Value) (e : Error)
    (h : expr_Run p t = (v, some e)) : Fails p t := by
  rintro ⟨b, hb⟩
  rw [h] at hb
  simp at hb

theorem fails_of_nonbool (p : Program G) (h : ∀ b, (expr_Run p t).1 ≠ Value.bool b) :
    Fails p t := by
  rintro ⟨b, hb⟩
  exact h b (by rw [hb])

/-- The single-match check returns an error exactly when a predicate it ran failed. -/
theorem single_err_iff (P : List (Program G)) :
    (CheckTorrentSingleMatch t P).ret.2 ≠ none ↔
      ∃ p ∈ (CheckTorrentSingleMatch t P).evaluated, Fails p t := by
  induction P with
  | nil => simp [CheckTorrentSingleMatch]
  | cons p P ih =>
    rcases run_cases t p with h | h | ⟨v, e, h⟩ | ⟨v, hv, h⟩
    · rw [single_cons_true t p P h]
      have : ¬ Fails p t := fun hf => hf ⟨true, h⟩
      simp [this]
    · rw [single_cons_false t p P h]
      have : ¬ Fails p t := fun hf => hf ⟨false, h⟩
      simp [Checked.after, this, ih]
    · rw [single_cons_fault t p P v e h]
      simp [fails_of_fault t p v e h]
    · rw [single_cons_nonbool t p P v hv h]
      have : Fails p t := fails_of_nonbool t p (by rw [h]; exact hv)
      simp [this]

/-- The all-match check returns an error exactly when a predicate it ran failed. -/
theorem all_err_iff (P : List (Program G)) :
    (CheckTorrentAllMatch t P).ret.2 ≠ none ↔
      ∃ p ∈ (CheckTorrentAllMatch t P).evaluated, Fails p t := by
  induction P with
  | nil => simp [CheckTorrentAllMatch]
  | cons p P ih =>
    rcases run_cases t p with h | h | ⟨v, e, h⟩ | ⟨v, hv, h⟩
    · rw [all_cons_true t p P h]
      have : ¬ Fails p t := fun hf => hf ⟨true, h⟩
      simp [Checked.after, this, ih]
    · rw [all_cons_false t p P h]
      have : ¬ Fails p t := fun hf => hf ⟨false, h⟩
      simp [this]
    · rw [all_cons_fault t p P v e h]
      simp [fails_of_fault t p v e h]
    · rw [all_cons_nonbool t p P v hv h]
      have : Fails p t := fails_of_nonbool t p (by rw [h]; exact hv)
      simp [this]

/-- When every predicate is true, all-match runs them all and returns true. -/
theorem all_of_all_true (P : List (Program G))
    (h : ∀ p ∈ P, expr_Run p t = (Value.bool true, none)) :
    CheckTorrentAllMatch t P = ⟨(true, none), P⟩ := by
  have := all_prefix_true t P [] h
  simpa [CheckTorrentAllMatch] using this

/-- When all-match returns without error, its verdict is whether every predicate
is true. -/
theorem all_verdict (P : List (Program G)) (h : (CheckTorrentAllMatch t P).ret.2 = none) :
    (CheckTorrentAllMatch t P).ret.1 = true ↔
      ∀ p ∈ P, expr_Run p t = (Value.bool true, none) := by
  induction P with
  | nil => simp [CheckTorrentAllMatch]
  | cons p P ih =>
    rcases run_cases t p with hp | hp | ⟨v, e, hp⟩ | ⟨v, hv, hp⟩
    · rw [all_cons_true t p P hp] at h ⊢
      simp only [Checked.after] at h ⊢
      rw [ih h]
      simp [hp]
    · rw [all_cons_false t p P hp]
      simp [hp]
    · rw [all_cons_fault t p P v e hp] at h
      simp at h
    · rw [all_cons_nonbool t p P v hv hp] at h
      simp at h

end Loops

/-! ## The filters -/

section Filters

variable {G : Runtime} (c : QBittorrent G) (t : Torrent G)

theorem ShouldIgnore_spec :
    (c.ShouldIgnore t).evaluated = (CheckTorrentSingleMatch t c.exp.Ignores).evaluated ∧
    ((CheckTorrentSingleMatch t c.exp.Ignores).ret.2 = none →
      (c.ShouldIgnore t).ret = (CheckTorrentSingleMatch t c.exp.Ignores).ret) ∧
    ((CheckTorrentSingleMatch t c.exp.Ignores).ret.2 ≠ none →
      (c.ShouldIgnore t).ret.1 = true ∧ (c.ShouldIgnore t).ret.2 ≠ none) := by
  unfold QBittorrent.ShouldIgnore
  rcases CheckTorrentSingleMatch t c.exp.Ignores with ⟨⟨m, _ | e⟩, ev⟩ <;> simp

theorem ShouldRemove_spec :
    (c.ShouldRemove t).evaluated = (CheckTorrentSingleMatch t c.exp.Removes).evaluated ∧
    ((CheckTorrentSingleMatch t c.exp.Removes).ret.2 = none →
      (c.ShouldRemove t).ret = (CheckTorrentSingleMatch t c.exp.Removes).ret) ∧
    ((CheckTorrentSingleMatch t c.exp.Removes).ret.2 ≠ none →
      (c.ShouldRemove t).ret.1 = false ∧ (c.ShouldRemove t).ret.2 ≠ none) := by
  unfold QBittorrent.ShouldRemove
  rcases CheckTorrentSingleMatch t c.exp.Removes with ⟨⟨m, _ | e⟩, ev⟩ <;> simp

/-- One turn of the loop of `ShouldRelabel`, by what all-match returned for the rule. -/
theorem relabel_cons (label : LabelExpression G) (labels : List (LabelExpression G)) :
    (∀ e, (CheckTorrentAllMatch t label.Updates).ret.2 = some e →
      ShouldRelabel_loop t (label :: labels) =
        ⟨("", false, some (fmt_Errorf ("check update expression: " ++ t.Hash ++ ": ") (some e))),
          (CheckTorrentAllMatch t label.Updates).evaluated⟩) ∧
    ((CheckTorrentAllMatch t label.Updates).ret = (true, none) →
      ShouldRelabel_loop t (label :: labels) =
        ⟨(label.Name, true, none), (CheckTorrentAllMatch t label.Updates).evaluated⟩) ∧
    ((CheckTorrentAllMatch t label.Updates).ret = (false, none) →
      ShouldRelabel_loop t (label :: labels) =
        ⟨(ShouldRelabel_loop t labels).ret,
          (CheckTorrentAllMatch t label.Updates).evaluated ++
            (ShouldRelabel_loop t labels).evaluated⟩) := by
  rw [ShouldRelabel_loop]
  rcases CheckTorrentAllMatch t label.Updates with ⟨⟨m, _ | e⟩, ev⟩ <;> cases m <;> simp

/-- The relabel loop returns an error exactly when a predicate it ran failed, and
then its other results are the empty name and false. -/
theorem relabel_err_iff (L : List (LabelExpression G)) :
    ((ShouldRelabel_loop t L).ret.2.2 ≠ none ↔
      ∃ p ∈ (ShouldRelabel_loop t L).evaluated, Fails p t) ∧
    ((ShouldRelabel_loop t L).ret.2.2 ≠ none →
      (ShouldRelabel_loop t L).ret.1 = "" ∧ (ShouldRelabel_loop t L).ret.2.1 = false) := by
  induction L with
  | nil => simp [ShouldRelabel_loop]
  | cons label labels ih =>
    obtain ⟨h1, h2, h3⟩ := relabel_cons t label labels
    have herr := all_err_iff t label.Updates
    rcases hr : (CheckTorrentAllMatch t label.Updates).ret with ⟨m, _ | e⟩
    · have hno : ¬ ∃ p ∈ (CheckTorrentAllMatch t label.Updates).evaluated, Fails p t := by
        rw [← herr, hr]; simp
      cases m
      · rw [h3 hr]
        constructor
        · simp only [List.mem_append]
          rw [ih.1]
          constructor
          · rintro ⟨p, hp, hf⟩; exact ⟨p, Or.inr hp, hf⟩
          · rintro ⟨p, hp | hp, hf⟩
            · exact absurd ⟨p, hp, hf⟩ hno
            · exact ⟨p, hp, hf⟩
        · exact ih.2
      · rw [h2 hr]
        constructor
        · constructor
          · intro h; simp at h
          · intro h; exact absurd h hno
        · intro h; simp at h
    · rw [h1 e (by rw [hr])]
      have hyes : ∃ p ∈ (CheckTorrentAllMatch t label.Updates).evaluated, Fails p t := by
        rw [← herr, hr]; simp
      simp [hyes]

end Filters

/-! ## Claims about the policy evaluation engine -/

/-- C1: when every predicate of `P` yields a boolean without fault on `t`,
`CheckTorrentSingleMatch` returns `(true, nil)` if and only if some predicate of
`P` is true on `t`, and `(false, nil)` if and only if none is; for the empty
sequence it returns `(false, nil)`. -/
theorem CheckTorrentSingleMatch_true_iff_exists {G : Runtime} (t : Torrent G)
    (P : List (Program G)) (h : ∀ p ∈ P, ∃ b, expr_Run p t = (Value.bool b, none)) :
    ((CheckTorrentSingleMatch t P).ret = (true, none) ↔
      ∃ p ∈ P, expr_Run p t = (Value.bool true, none)) ∧
    ((CheckTorrentSingleMatch t P).ret = (false, none) ↔
      ¬ ∃ p ∈ P, expr_Run p t = (Value.bool true, none)) ∧
    (CheckTorrentSingleMatch t ([] : List (Program G))).ret = (false, none) := by
  refine ⟨?_, ?_, rfl⟩
  · induction P with
    | nil => simp [CheckTorrentSingleMatch]
    | cons p P ih =>
      obtain ⟨b, hb⟩ := h p (List.mem_cons_self p P)
      have ih2 := ih (fun x hx => h x (List.mem_cons_of_mem p hx))
      cases b
      · rw [single_cons_false t p P hb]
        simp only [Checked.after, List.mem_cons, exists_eq_or_imp]
        rw [ih2]
        simp [hb]
      · rw [single_cons_true t p P hb]
        simp [hb]
  · induction P with
    | nil => simp [CheckTorrentSingleMatch]
    | cons p P ih =>
      obtain ⟨b, hb⟩ := h p (List.mem_cons_self p P)
      have ih2 := ih (fun x hx => h x (List.mem_cons_of_mem p hx))
      cases b
      · rw [single_cons_false t p P hb]
        simp only [Checked.after, List.mem_cons, exists_eq_or_imp]
        rw [ih2]
        simp [hb]
      · rw [single_cons_true t p P hb]
        simp [hb]

/-- Witness of C1: on the demo record (label `tv`, seeding, 5 seeds) the sequence
`Label == "movies", Seeding` matches and `Label == "movies", Seeds > 9` does not. -/
theorem CheckTorrentSingleMatch_true_iff_exists_witness :
    (CheckTorrentSingleMatch demoTorrent [pLabelIs "movies", pSeeding]).ret = (true, none) ∧
    (CheckTorrentSingleMatch demoTorrent [pLabelIs "movies", pSeedsAbove 9]).ret =
      (false, none) :=
  ⟨(CheckTorrentSingleMatch_true_iff_exists demoTorrent [pLabelIs "movies", pSeeding]
      (by
        intro p hp
        simp only [List.mem_cons, List.mem_singleton, List.not_mem_nil, or_false] at hp
        rcases hp with rfl | rfl
        · exact ⟨false, by decide⟩
        · exact ⟨true, by decide⟩)).1.mpr ⟨pSeeding, by simp, by decide⟩,
   (CheckTorrentSingleMatch_true_iff_exists demoTorrent [pLabelIs "movies", pSeedsAbove 9]
      (by
        intro p hp
        simp only [List.mem_cons, List.mem_singleton, List.not_mem_nil, or_false] at hp
        rcases hp with rfl | rfl
        · exact ⟨false, by decide⟩
        · exact ⟨false, by decide⟩)).2.1.mpr
      (by
        rintro ⟨p, hp, hrun⟩
        simp only [List.mem_cons, List.mem_singleton, List.not_mem_nil, or_false] at hp
        rcases hp with rfl | rfl
        · exact absurd hrun (by decide)
        · exact absurd hrun (by decide))⟩

/-- C3: if every predicate of `P` is true on `t` then `CheckTorrentAllMatch`
returns `(true, nil)`, the empty sequence included; and if `p` is false on `t`
and every predicate before it is true, it returns `(false, nil)` whatever the
predicates after `p` are, and runs none of them. -/
theorem CheckTorrentAllMatch_true_and_first_false {G : Runtime} (t : Torrent G) :
    (∀ P : List (Program G), (∀ p ∈ P, expr_Run p t = (Value.bool true, none)) →
      (CheckTorrentAllMatch t P).ret = (true, none)) ∧
    (∀ (pre : List (Program G)) (p : Program G) (post : List (Program G)),
      (∀ q ∈ pre, expr_Run q t = (Value.bool true, none)) →
      expr_Run p t = (Value.bool false, none) →
      CheckTorrentAllMatch t (pre ++ p :: post) = ⟨(false, none), pre ++ [p]⟩) := by
  constructor
  · intro P h
    rw [all_of_all_true t P h]
  · intro pre p post hpre hp
    rw [all_prefix_true t pre (p :: post) hpre, all_cons_false t p post hp]

/-- Witness of C3: on the demo record both predicates of `Seeding, Label == "tv"`
are true, and in `Seeding, Label == "movies", fault, Seeds` the second is the
first false one; the faulting and the non-boolean predicate after it are not run. -/
theorem CheckTorrentAllMatch_true_and_first_false_witness :
    (CheckTorrentAllMatch demoTorrent [pSeeding, pLabelIs "tv"]).ret = (true, none) ∧
    CheckTorrentAllMatch demoTorrent [pSeeding, pLabelIs "movies", pFault, pSeeds] =
      ⟨(false, none), [pSeeding, pLabelIs "movies"]⟩ :=
  ⟨(CheckTorrentAllMatch_true_and_first_false demoTorrent).1 [pSeeding, pLabelIs "tv"]
      (by
        intro p hp
        simp only [List.mem_cons, List.mem_singleton, List.not_mem_nil, or_false] at hp
        rcases hp with rfl | rfl
        · decide
        · decide),
   (CheckTorrentAllMatch_true_and_first_false demoTorrent).2 [pSeeding] (pLabelIs "movies")
      [pFault, pSeeds]
      (by
        intro p hp
        simp only [List.mem_singleton] at hp
        subst hp
        decide)
      (by decide)⟩

/-- C9: if `p` is true on `t` and every predicate before it in `P = pre ++ p :: post`
is boolean false, then for every `Q`, `CheckTorrentSingleMatch t (P ++ Q)` returns
`(true, nil)` and the predicates it ran are exactly `pre` and `p`: nothing after the
first true predicate is evaluated, so faulting or non-boolean predicates there
cannot matter. -/
theorem CheckTorrentSingleMatch_short_circuit {G : Runtime} (t : Torrent G)
    (pre : List (Program G)) (p : Program G) (post Q : List (Program G))
    (hpre : ∀ q ∈ pre, expr_Run q t = (Value.bool false, none))
    (hp : expr_Run p t = (Value.bool true, none)) :
    CheckTorrentSingleMatch t ((pre ++ p :: post) ++ Q) = ⟨(true, none), pre ++ [p]⟩ := by
  rw [List.append_assoc, List.cons_append, single_prefix_false t pre _ hpre,
    single_cons_true t p _ hp]

/-- Witness of C9: on the demo record, `Label == "movies", Seeding` followed by a
faulting and a non-boolean predicate returns `(true, nil)` after two runs. -/
theorem CheckTorrentSingleMatch_short_circuit_witness :
    CheckTorrentSingleMatch demoTorrent (([pLabelIs "movies"] ++ pSeeding :: [pSeedsAbove 9]) ++
      [pFault, pSeeds]) = ⟨(true, none), [pLabelIs "movies"] ++ [pSeeding]⟩ :=
  CheckTorrentSingleMatch_short_circuit demoTorrent [pLabelIs "movies"] pSeeding [pSeedsAbove 9]
    [pFault, pSeeds]
    (by
      intro p hp
      simp only [List.mem_singleton] at hp
      subst hp
      decide)
    (by decide)

section RelabelLoop

variable {G : Runtime} (t : Torrent G)

/-- A rule whose updates are all true ends the loop with its name. -/
theorem relabel_cons_satisfied (r : LabelExpression G) (post : List (LabelExpression G))
    (hr : ∀ p ∈ r.Updates, expr_Run p t = (Value.bool true, none)) :
    ShouldRelabel_loop t (r :: post) = ⟨(r.Name, true, none), r.Updates⟩ := by
  have h := (relabel_cons t r post).2.1
  rw [all_of_all_true t r.Updates hr] at h
  exact h rfl

/-- Rules after a rule whose updates are all true have no part in the result. -/
theorem relabel_post_irrelevant (pre : List (LabelExpression G)) (r : LabelExpression G)
    (post post2 : List (LabelExpression G))
    (hr : ∀ p ∈ r.Updates, expr_Run p t = (Value.bool true, none)) :
    ShouldRelabel_loop t (pre ++ r :: post) = ShouldRelabel_loop t (pre ++ r :: post2) := by
  induction pre with
  | nil =>
    rw [List.nil_append, List.nil_append, relabel_cons_satisfied t r post hr,
      relabel_cons_satisfied t r post2 hr]
  | cons q pre ih =>
    obtain ⟨a1, a2, a3⟩ := relabel_cons t q (pre ++ r :: post)
    obtain ⟨b1, b2, b3⟩ := relabel_cons t q (pre ++ r :: post2)
    rw [List.cons_append, List.cons_append]
    rcases hq : (CheckTorrentAllMatch t q.Updates).ret with ⟨m, _ | e⟩
    · cases m
      · rw [a3 hq, b3 hq, ih]
      · rw [a2 hq, b2 hq]
    · rw [a1 e (by rw [hq]), b1 e (by rw [hq])]

/-- Rules that are not satisfied are passed over, as long as every predicate the
loop runs yields a boolean without fault. -/
theorem relabel_skip (pre rest : List (LabelExpression G))
    (hpre : ∀ q ∈ pre, ¬ ∀ p ∈ q.Updates, expr_Run p t = (Value.bool true, none))
    (hbool : ∀ p ∈ (ShouldRelabel_loop t (pre ++ rest)).evaluated,
      ∃ b, expr_Run p t = (Value.bool b, none)) :
    (ShouldRelabel_loop t (pre ++ rest)).ret = (ShouldRelabel_loop t rest).ret ∧
    ∀ p ∈ (ShouldRelabel_loop t rest).evaluated, ∃ b, expr_Run p t = (Value.bool b, none) := by
  induction pre with
  | nil => exact ⟨rfl, hbool⟩
  | cons q pre ih =>
    obtain ⟨a1, a2, a3⟩ := relabel_cons t q (pre ++ rest)
    rw [List.cons_append] at hbool ⊢
    have hq := hpre q (List.mem_cons_self q pre)
    rcases hc : (CheckTorrentAllMatch t q.Updates).ret with ⟨m, _ | e⟩
    · cases m
      · rw [a3 hc] at hbool ⊢
        exact ih (fun x hx => hpre x (List.mem_cons_of_mem q hx))
          (fun p hp => hbool p (List.mem_append_right _ hp))
      · exact absurd ((all_verdict t q.Updates (by rw [hc])).1 (by rw [hc])) hq
    · rw [a1 e (by rw [hc])] at hbool
      obtain ⟨p, hp, hf⟩ := (all_err_iff t q.Updates).1 (by rw [hc]; simp)
      exact absurd (hbool p hp) hf

end RelabelLoop

/-- C2: when every predicate that `ShouldRelabel` runs on `t` yields a boolean
without fault, it returns `(r.Name, true, nil)` for the first rule `r`, in declared
order, whose updates are all true on `t`, and replacing the rules after `r` by any
others changes neither the result nor the predicates run; and it returns
`("", false, nil)` when no rule has all its updates true on `t`. -/
theorem ShouldRelabel_first_satisfied_rule {G : Runtime} (c : QBittorrent G) (t : Torrent G)
    (hbool : ∀ p ∈ (c.ShouldRelabel t).evaluated, ∃ b, expr_Run p t = (Value.bool b, none)) :
    (∀ (pre : List (LabelExpression G)) (r : LabelExpression G)
        (post : List (LabelExpression G)),
      c.exp.Labels = pre ++ r :: post →
      (∀ q ∈ pre, ¬ ∀ p ∈ q.Updates, expr_Run p t = (Value.bool true, none)) →
      (∀ p ∈ r.Updates, expr_Run p t = (Value.bool true, none)) →
      (c.ShouldRelabel t).ret = (r.Name, true, none) ∧
      ∀ post2 : List (LabelExpression G),
        QBittorrent.ShouldRelabel { c with exp := { c.exp with Labels := pre ++ r :: post2 } } t =
          c.ShouldRelabel t) ∧
    ((∀ q ∈ c.exp.Labels, ¬ ∀ p ∈ q.Updates, expr_Run p t = (Value.bool true, none)) →
      (c.ShouldRelabel t).ret = ("", false, none)) := by
  constructor
  · intro pre r post hL hpre hr
    unfold QBittorrent.ShouldRelabel at hbool ⊢
    constructor
    · rw [hL] at hbool ⊢
      rw [(relabel_skip t pre (r :: post) hpre hbool).1, relabel_cons_satisfied t r post hr]
    · intro post2
      rw [hL]
      exact relabel_post_irrelevant t pre r post2 post hr
  · intro hnone
    unfold QBittorrent.ShouldRelabel at hbool ⊢
    have h := relabel_skip t c.exp.Labels [] hnone (by rw [List.append_nil]; exact hbool)
    rw [List.append_nil] at h
    rw [h.1]
    rfl

/-- Witness of C2: with the rules `movies, seeded, any, broken` the demo record
gets the label `seeded`; with the single rule `movies` it gets none. -/
theorem ShouldRelabel_first_satisfied_rule_witness :
    ((demoQBittorrent (.ok "2.11") (fun _ => false) ⟨[], [], demoLabels⟩).ShouldRelabel
      demoTorrent).ret = ("seeded", true, none) ∧
    ((demoQBittorrent (.ok "2.11") (fun _ => false)
      ⟨[], [], [⟨"movies", [pLabelIs "movies", pFault]⟩]⟩).ShouldRelabel demoTorrent).ret =
        ("", false, none) :=
  ⟨((ShouldRelabel_first_satisfied_rule
      (demoQBittorrent (.ok "2.11") (fun _ => false) ⟨[], [], demoLabels⟩) demoTorrent
      (by
        intro p hp
        have he : ((demoQBittorrent (.ok "2.11") (fun _ => false)
            ⟨[], [], demoLabels⟩).ShouldRelabel demoTorrent).evaluated =
            [pLabelIs "movies", pSeeding, pLabelIs "tv"] := rfl
        rw [he] at hp
        simp only [List.mem_cons, List.mem_singleton, List.not_mem_nil, or_false] at hp
        rcases hp with rfl | rfl | rfl
        · exact ⟨false, by decide⟩
        · exact ⟨true, by decide⟩
        · exact ⟨true, by decide⟩)).1
      [⟨"movies", [pLabelIs "movies", pFault]⟩] ⟨"seeded", [pSeeding, pLabelIs "tv"]⟩
      [⟨"any", []⟩, ⟨"broken", [pFault]⟩] rfl
      (by
        intro q hq
        simp only [List.mem_singleton] at hq
        subst hq
        intro hall
        exact absurd (hall (pLabelIs "movies") (by simp)) (by decide))
      (by
        intro p hp
        simp only [List.mem_cons, List.mem_singleton, List.not_mem_nil, or_false] at hp
        rcases hp with rfl | rfl
        · decide
        · decide)).1,
   (ShouldRelabel_first_satisfied_rule
      (demoQBittorrent (.ok "2.11") (fun _ => false)
        ⟨[], [], [⟨"movies", [pLabelIs "movies", pFault]⟩]⟩) demoTorrent
      (by
        intro p hp
        have he : ((demoQBittorrent (.ok "2.11") (fun _ => false)
            ⟨[], [], [⟨"movies", [pLabelIs "movies", pFault]⟩]⟩).ShouldRelabel
              demoTorrent).evaluated = [pLabelIs "movies"] := rfl
        rw [he] at hp
        simp only [List.mem_singleton] at hp
        subst hp
        exact ⟨false, by decide⟩)).2
      (by
        intro q hq
        have hq2 : q = ⟨"movies", [pLabelIs "movies", pFault]⟩ := by
          simpa [demoQBittorrent] using hq
        subst hq2
        intro hall
        exact absurd (hall (pLabelIs "movies") (by simp)) (by decide))⟩

/-- C6: if a predicate whose result on `t` is not a boolean is among those a check
runs, then `CheckTorrentSingleMatch` and `CheckTorrentAllMatch` return a non-nil
error, and so do `ShouldIgnore`, `ShouldRemove` and `ShouldRelabel`. -/
theorem non_boolean_result_is_an_error {G : Runtime} (c : QBittorrent G) (t : Torrent G)
    (P : List (Program G)) :
    ((∃ p ∈ (CheckTorrentSingleMatch t P).evaluated, ∀ b, (expr_Run p t).1 ≠ Value.bool b) →
      (CheckTorrentSingleMatch t P).ret.2 ≠ none) ∧
    ((∃ p ∈ (CheckTorrentAllMatch t P).evaluated, ∀ b, (expr_Run p t).1 ≠ Value.bool b) →
      (CheckTorrentAllMatch t P).ret.2 ≠ none) ∧
    ((∃ p ∈ (c.ShouldIgnore t).evaluated, ∀ b, (expr_Run p t).1 ≠ Value.bool b) →
      (c.ShouldIgnore t).ret.2 ≠ none) ∧
    ((∃ p ∈ (c.ShouldRemove t).evaluated, ∀ b, (expr_Run p t).1 ≠ Value.bool b) →
      (c.ShouldRemove t).ret.2 ≠ none) ∧
    ((∃ p ∈ (c.ShouldRelabel t).evaluated, ∀ b, (expr_Run p t).1 ≠ Value.bool b) →
      (c.ShouldRelabel t).ret.2.2 ≠ none) := by
  refine ⟨?_, ?_, ?_, ?_, ?_⟩
  · rintro ⟨p, hp, hn⟩
    exact (single_err_iff t P).2 ⟨p, hp, fails_of_nonbool t p hn⟩
  · rintro ⟨p, hp, hn⟩
    exact (all_err_iff t P).2 ⟨p, hp, fails_of_nonbool t p hn⟩
  · rintro ⟨p, hp, hn⟩
    obtain ⟨he, -, herr⟩ := ShouldIgnore_spec c t
    rw [he] at hp
    exact (herr ((single_err_iff t _).2 ⟨p, hp, fails_of_nonbool t p hn⟩)).2
  · rintro ⟨p, hp, hn⟩
    obtain ⟨he, -, herr⟩ := ShouldRemove_spec c t
    rw [he] at hp
    exact (herr ((single_err_iff t _).2 ⟨p, hp, fails_of_nonbool t p hn⟩)).2
  · rintro ⟨p, hp, hn⟩
    exact (relabel_err_iff t c.exp.Labels).1.2 ⟨p, hp, fails_of_nonbool t p hn⟩

/-- Witness of C6: on the demo record, each check and each filter that reaches the
integer-valued expression `Seeds` returns a non-nil error. -/
theorem non_boolean_result_is_an_error_witness :
    (CheckTorrentSingleMatch demoTorrent [pLabelIs "movies", pSeeds, pSeeding]).ret.2 ≠ none ∧
    (CheckTorrentAllMatch demoTorrent [pSeeding, pSeeds, pLabelIs "tv"]).ret.2 ≠ none ∧
    ((demoQBittorrent (.ok "2.11") (fun _ => false) demoNonBoolean).ShouldIgnore
      demoTorrent).ret.2 ≠ none ∧
    ((demoQBittorrent (.ok "2.11") (fun _ => false) demoNonBoolean).ShouldRemove
      demoTorrent).ret.2 ≠ none ∧
    ((demoQBittorrent (.ok "2.11") (fun _ => false) demoNonBoolean).ShouldRelabel
      demoTorrent).ret.2.2 ≠ none :=
  ⟨(non_boolean_result_is_an_error (demoQBittorrent (.ok "2.11") (fun _ => false) demoNonBoolean)
      demoTorrent [pLabelIs "movies", pSeeds, pSeeding]).1
      ⟨pSeeds, by
        rw [show (CheckTorrentSingleMatch demoTorrent
          [pLabelIs "movies", pSeeds, pSeeding]).evaluated = [pLabelIs "movies", pSeeds] from rfl]
        simp, by decide⟩,
   (non_boolean_result_is_an_error (demoQBittorrent (.ok "2.11") (fun _ => false) demoNonBoolean)
      demoTorrent [pSeeding, pSeeds, pLabelIs "tv"]).2.1
      ⟨pSeeds, by
        rw [show (CheckTorrentAllMatch demoTorrent
          [pSeeding, pSeeds, pLabelIs "tv"]).evaluated = [pSeeding, pSeeds] from rfl]
        simp, by decide⟩,
   (non_boolean_result_is_an_error (demoQBittorrent (.ok "2.11") (fun _ => false) demoNonBoolean)
      demoTorrent []).2.2.1
      ⟨pSeeds, by
        rw [show ((demoQBittorrent (.ok "2.11") (fun _ => false) demoNonBoolean).ShouldIgnore
          demoTorrent).evaluated = [pLabelIs "movies", pSeeds] from rfl]
        simp, by decide⟩,
   (non_boolean_result_is_an_error (demoQBittorrent (.ok "2.11") (fun _ => false) demoNonBoolean)
      demoTorrent []).2.2.2.1
      ⟨pSeeds, by
        rw [show ((demoQBittorrent (.ok "2.11") (fun _ => false) demoNonBoolean).ShouldRemove
          demoTorrent).evaluated = [pSeeds] from rfl]
        simp, by decide⟩,
   (non_boolean_result_is_an_error (demoQBittorrent (.ok "2.11") (fun _ => false) demoNonBoolean)
      demoTorrent []).2.2.2.2
      ⟨pSeeds, by
        rw [show ((demoQBittorrent (.ok "2.11") (fun _ => false) demoNonBoolean).ShouldRelabel
          demoTorrent).evaluated = [pSeeding, pSeeds] from rfl]
        simp, by decide⟩⟩

/-- C10: whenever a predicate that a filter runs on `t` fails (it faults or its
result is not a boolean), the filter returns a non-nil error and, beside it, the
decision `true` from `ShouldIgnore`, `false` from `ShouldRemove` and `("", false)`
from `ShouldRelabel`; the same decisions accompany every non-nil error. -/
theorem filters_fail_safe {G : Runtime} (c : QBittorrent G) (t : Torrent G) :
    (((∃ p ∈ (c.ShouldIgnore t).evaluated, Fails p t) ∨ (c.ShouldIgnore t).ret.2 ≠ none) →
      (c.ShouldIgnore t).ret.1 = true ∧ (c.ShouldIgnore t).ret.2 ≠ none) ∧
    (((∃ p ∈ (c.ShouldRemove t).evaluated, Fails p t) ∨ (c.ShouldRemove t).ret.2 ≠ none) →
      (c.ShouldRemove t).ret.1 = false ∧ (c.ShouldRemove t).ret.2 ≠ none) ∧
    (((∃ p ∈ (c.ShouldRelabel t).evaluated, Fails p t) ∨ (c.ShouldRelabel t).ret.2.2 ≠ none) →
      (c.ShouldRelabel t).ret.1 = "" ∧ (c.ShouldRelabel t).ret.2.1 = false ∧
        (c.ShouldRelabel t).ret.2.2 ≠ none) := by
  refine ⟨?_, ?_, ?_⟩
  · obtain ⟨he, hok, herr⟩ := ShouldIgnore_spec c t
    have key : (c.ShouldIgnore t).ret.2 ≠ none →
        (CheckTorrentSingleMatch t c.exp.Ignores).ret.2 ≠ none := by
      intro h hn
      rw [hok hn] at h
      exact h hn
    rintro (⟨p, hp, hf⟩ | h)
    · rw [he] at hp
      exact herr ((single_err_iff t _).2 ⟨p, hp, hf⟩)
    · exact herr (key h)
  · obtain ⟨he, hok, herr⟩ := ShouldRemove_spec c t
    have key : (c.ShouldRemove t).ret.2 ≠ none →
        (CheckTorrentSingleMatch t c.exp.Removes).ret.2 ≠ none := by
      intro h hn
      rw [hok hn] at h
      exact h hn
    rintro (⟨p, hp, hf⟩ | h)
    · rw [he] at hp
      exact herr ((single_err_iff t _).2 ⟨p, hp, hf⟩)
    · exact herr (key h)
  · obtain ⟨hiff, hval⟩ := relabel_err_iff t c.exp.Labels
    have key : (c.ShouldRelabel t).ret.2.2 ≠ none →
        (c.ShouldRelabel t).ret.1 = "" ∧ (c.ShouldRelabel t).ret.2.1 = false ∧
          (c.ShouldRelabel t).ret.2.2 ≠ none :=
      fun h => ⟨(hval h).1, (hval h).2, h⟩
    rintro (h | h)
    · exact key (hiff.2 h)
    · exact key h

/-- Witness of C10: on the demo record, with a faulting predicate in each group,
the decisions returned beside the error are ignore, do not remove, do not relabel. -/
theorem filters_fail_safe_witness :
    ((demoQBittorrent (.ok "2.11") (fun _ => false) demoFaulting).ShouldIgnore
      demoTorrent).ret.1 = true ∧
    ((demoQBittorrent (.ok "2.11") (fun _ => false) demoFaulting).ShouldRemove
      demoTorrent).ret.1 = false ∧
    ((demoQBittorrent (.ok "2.11") (fun _ => false) demoFaulting).ShouldRelabel
      demoTorrent).ret.1 = "" ∧
    ((demoQBittorrent (.ok "2.11") (fun _ => false) demoFaulting).ShouldRelabel
      demoTorrent).ret.2.1 = false :=
  ⟨((filters_fail_safe (demoQBittorrent (.ok "2.11") (fun _ => false) demoFaulting)
      demoTorrent).1 (Or.inr (by decide))).1,
   ((filters_fail_safe (demoQBittorrent (.ok "2.11") (fun _ => false) demoFaulting)
      demoTorrent).2.1 (Or.inr (by decide))).1,
   ((filters_fail_safe (demoQBittorrent (.ok "2.11") (fun _ => false) demoFaulting)
      demoTorrent).2.2 (Or.inr (by decide))).1,
   ((filters_fail_safe (demoQBittorrent (.ok "2.11") (fun _ => false) demoFaulting)
      demoTorrent).2.2 (Or.inr (by decide))).2.1⟩

theorem RemoveTorrent_eq_removalRun {G : Runtime} (c : QBittorrent G) (tr : List Event)
    (hash : String) (deleteData : Bool) (s : String) (v cutoff : G.Version)
    (hs : c.client.Application_GetAPIVersion tr = .ok s) (hv : G.NewVersion s = .ok v)
    (hc : G.NewVersion "2.11" = .ok cutoff) :
    c.RemoveTorrent tr hash deleteData = removalRun c tr (G.LessThan v cutoff) hash deleteData := by
  unfold QBittorrent.RemoveTorrent removalRun
  simp only [hs, hv, hc]
  cases G.LessThan v cutoff
  · simp only [stopEvent, resumeEvent, resumeStep, qbt_Client.answer, Bool.false_eq_true, if_false,
      List.append_assoc, List.cons_append, List.nil_append]
    rcases h1 : c.client.Torrent_StopTorrents (tr ++ [Event.GetAPIVersion]) [hash] with _ | e1
    · rcases h2 : c.client.Torrent_StartTorrents
        (tr ++ [Event.GetAPIVersion, Event.StopTorrents [hash], Event.Sleep 1]) [hash] with _ | e2
      · simp only [h2, List.append_assoc, List.cons_append, List.nil_append]
      · simp only [h2, List.append_assoc, List.cons_append, List.nil_append]
    · simp only []
  · simp only [stopEvent, resumeEvent, resumeStep, qbt_Client.answer, if_true,
      List.append_assoc, List.cons_append, List.nil_append]
    rcases h1 : c.client.Torrent_PauseTorrents (tr ++ [Event.GetAPIVersion]) [hash] with _ | e1
    · rcases h2 : c.client.Torrent_ResumeTorrents
        (tr ++ [Event.GetAPIVersion, Event.PauseTorrents [hash], Event.Sleep 1]) [hash] with _ | e2
      · simp only [h2, List.append_assoc, List.cons_append, List.nil_append]
      · simp only [h2, List.append_assoc, List.cons_append, List.nil_append]
    · simp only []
section Removal

variable {G : Runtime} (c : QBittorrent G) (tr : List Event) (hash : String) (deleteData : Bool)

/-- The ways a call of `RemoveTorrent` can go. -/
theorem RemoveTorrent_cases :
    (∃ e, c.client.Application_GetAPIVersion tr = .error e ∧
      c.RemoveTorrent tr hash deleteData =
        (.returned (false, some (Error.wrapError ("get api version: " ++ e.text) e)),
          tr ++ [Event.GetAPIVersion])) ∨
    (∃ s e, c.client.Application_GetAPIVersion tr = .ok s ∧ G.NewVersion s = .error e ∧
      c.RemoveTorrent tr hash deleteData =
        (.returned (false, some (Error.wrapError ("parse api version: " ++ e.text) e)),
          tr ++ [Event.GetAPIVersion])) ∨
    (c.RemoveTorrent tr hash deleteData = (.panicked, tr ++ [Event.GetAPIVersion])) ∨
    (∃ s v cutoff, c.client.Application_GetAPIVersion tr = .ok s ∧ G.NewVersion s = .ok v ∧
      G.NewVersion "2.11" = .ok cutoff ∧
      c.RemoveTorrent tr hash deleteData =
        removalRun c tr (G.LessThan v cutoff) hash deleteData) := by
  rcases hs : c.client.Application_GetAPIVersion tr with e | s
  · left
    exact ⟨e, rfl, by simp [QBittorrent.RemoveTorrent, hs, fmt_Errorf]⟩
  · rcases hv : G.NewVersion s with e | v
    · right; left
      exact ⟨s, e, rfl, hv, by simp [QBittorrent.RemoveTorrent, hs, hv, fmt_Errorf]⟩
    · rcases hc : G.NewVersion "2.11" with e | cutoff
      · right; right; left
        simp [QBittorrent.RemoveTorrent, hs, hv, hc]
      · right; right; right
        exact ⟨s, v, cutoff, rfl, hv, rfl,
          RemoveTorrent_eq_removalRun c tr hash deleteData s v cutoff hs hv hc⟩

/-- A run of the four commands returns true only after a successful delete. -/
theorem removalRun_true (below : Bool) (err : Option Error)
    (h : (removalRun c tr below hash deleteData).1 = .returned (true, err)) :
    err = none ∧ ∃ tr2, (removalRun c tr below hash deleteData).2 =
        tr2 ++ [Event.DeleteTorrents [hash] deleteData] ∧
      c.client.Torrent_DeleteTorrents tr2 [hash] deleteData = none := by
  unfold removalRun at h ⊢
  simp only [List.append_assoc, List.cons_append, List.nil_append] at h ⊢
  rcases h1 : c.client.answer (tr ++ [Event.GetAPIVersion]) (stopEvent below hash) with _ | e1
  · rcases h2 : c.client.answer (tr ++ [Event.GetAPIVersion, stopEvent below hash, Event.Sleep 1])
        (resumeEvent below hash) with _ | e2
    · rcases h3 : c.client.answer (tr ++ [Event.GetAPIVersion, stopEvent below hash, Event.Sleep 1,
          resumeEvent below hash, Event.Sleep 2]) (Event.ReannounceTorrents [hash]) with _ | e3
      · rcases h4 : c.client.answer (tr ++ [Event.GetAPIVersion, stopEvent below hash,
            Event.Sleep 1, resumeEvent below hash, Event.Sleep 2, Event.ReannounceTorrents [hash],
            Event.Sleep 2]) (Event.DeleteTorrents [hash] deleteData) with _ | e4
        · simp only [h1, h2, h3, h4] at h ⊢
          refine ⟨by simpa using h.symm, tr ++ [Event.GetAPIVersion, stopEvent below hash,
            Event.Sleep 1, resumeEvent below hash, Event.Sleep 2, Event.ReannounceTorrents [hash],
            Event.Sleep 2], by simp, ?_⟩
          simpa [qbt_Client.answer] using h4
        · simp [h1, h2, h3, h4] at h
      · simp [h1, h2, h3] at h
    · simp [h1, h2] at h
  · simp [h1] at h

/-- A run of the four commands issues a delete only after stop, resume and
re-announce have succeeded. -/
theorem removalRun_delete (below : Bool) (hs : List String) (d : Bool)
    (h : Event.DeleteTorrents hs d ∈ ((removalRun c tr below hash deleteData).2).drop tr.length) :
    c.client.answer (tr ++ [Event.GetAPIVersion]) (stopEvent below hash) = none ∧
    c.client.answer (tr ++ [Event.GetAPIVersion, stopEvent below hash, Event.Sleep 1])
      (resumeEvent below hash) = none ∧
    c.client.answer (tr ++ [Event.GetAPIVersion, stopEvent below hash, Event.Sleep 1,
      resumeEvent below hash, Event.Sleep 2]) (Event.ReannounceTorrents [hash]) = none := by
  unfold removalRun at h
  simp only [List.append_assoc, List.cons_append, List.nil_append] at h
  rcases h1 : c.client.answer (tr ++ [Event.GetAPIVersion]) (stopEvent below hash) with _ | e1
  · rcases h2 : c.client.answer (tr ++ [Event.GetAPIVersion, stopEvent below hash, Event.Sleep 1])
        (resumeEvent below hash) with _ | e2
    · rcases h3 : c.client.answer (tr ++ [Event.GetAPIVersion, stopEvent below hash, Event.Sleep 1,
          resumeEvent below hash, Event.Sleep 2]) (Event.ReannounceTorrents [hash]) with _ | e3
      · exact ⟨rfl, rfl, rfl⟩
      · exfalso
        simp only [h1, h2, h3] at h
        cases below <;> simp [stopEvent, resumeEvent] at h
    · exfalso
      simp only [h1, h2] at h
      cases below <;> simp [stopEvent, resumeEvent] at h
  · exfalso
    simp only [h1] at h
    cases below <;> simp [stopEvent] at h

end Removal

/-! ## Claims about the removal sequence -/

/-- C4: when the backend reports an API version that parses and each command that
`RemoveTorrent` issues succeeds when it is issued, `RemoveTorrent` returns
`(true, nil)` and the calls it makes are, in this order and each once on the single
hash: the version query, then Pause, a 1 s wait, Resume, a 2 s wait, Reannounce, a
2 s wait, Delete with the given `deleteData` when the version is below `2.11`; and
the same with Stop and Start in place of Pause and Resume when the version is at or
above `2.11`.  Nothing is asked of commands that are not issued: the backend may
reject the other pair of verbs. -/
theorem RemoveTorrent_command_sequence {G : Runtime} (c : QBittorrent G) (tr : List Event)
    (hash : String) (deleteData : Bool) (s : String) (v cutoff : G.Version)
    (hs : c.client.Application_GetAPIVersion tr = .ok s) (hv : G.NewVersion s = .ok v)
    (hc : G.NewVersion "2.11" = .ok cutoff) :
    (G.LessThan v cutoff = true →
      c.client.Torrent_PauseTorrents (tr ++ [Event.GetAPIVersion]) [hash] = none →
      c.client.Torrent_ResumeTorrents
        (tr ++ [Event.GetAPIVersion, Event.PauseTorrents [hash], Event.Sleep 1]) [hash] = none →
      c.client.Torrent_ReannounceTorrents
        (tr ++ [Event.GetAPIVersion, Event.PauseTorrents [hash], Event.Sleep 1,
          Event.ResumeTorrents [hash], Event.Sleep 2]) [hash] = none →
      c.client.Torrent_DeleteTorrents
        (tr ++ [Event.GetAPIVersion, Event.PauseTorrents [hash], Event.Sleep 1,
          Event.ResumeTorrents [hash], Event.Sleep 2, Event.ReannounceTorrents [hash],
          Event.Sleep 2]) [hash] deleteData = none →
      c.RemoveTorrent tr hash deleteData =
        (.returned (true, none),
          tr ++ [Event.GetAPIVersion, Event.PauseTorrents [hash], Event.Sleep 1,
            Event.ResumeTorrents [hash], Event.Sleep 2, Event.ReannounceTorrents [hash],
            Event.Sleep 2, Event.DeleteTorrents [hash] deleteData])) ∧
    (G.LessThan v cutoff = false →
      c.client.Torrent_StopTorrents (tr ++ [Event.GetAPIVersion]) [hash] = none →
      c.client.Torrent_StartTorrents
        (tr ++ [Event.GetAPIVersion, Event.StopTorrents [hash], Event.Sleep 1]) [hash] = none →
      c.client.Torrent_ReannounceTorrents
        (tr ++ [Event.GetAPIVersion, Event.StopTorrents [hash], Event.Sleep 1,
          Event.StartTorrents [hash], Event.Sleep 2]) [hash] = none →
      c.client.Torrent_DeleteTorrents
        (tr ++ [Event.GetAPIVersion, Event.StopTorrents [hash], Event.Sleep 1,
          Event.StartTorrents [hash], Event.Sleep 2, Event.ReannounceTorrents [hash],
          Event.Sleep 2]) [hash] deleteData = none →
      c.RemoveTorrent tr hash deleteData =
        (.returned (true, none),
          tr ++ [Event.GetAPIVersion, Event.StopTorrents [hash], Event.Sleep 1,
            Event.StartTorrents [hash], Event.Sleep 2, Event.ReannounceTorrents [hash],
            Event.Sleep 2, Event.DeleteTorrents [hash] deleteData])) := by
  rw [RemoveTorrent_eq_removalRun c tr hash deleteData s v cutoff hs hv hc]
  constructor
  · intro hlt h1 h2 h3 h4
    rw [hlt]
    simp [removalRun, stopEvent, resumeEvent, qbt_Client.answer, h1, h2, h3, h4]
  · intro hlt h1 h2 h3 h4
    rw [hlt]
    simp [removalRun, stopEvent, resumeEvent, qbt_Client.answer, h1, h2, h3, h4]

/-- Witness of C4: with the dotted-version model, a backend that reports `2.10` and
rejects Stop and Start is driven through Pause and Resume, and a backend that
reports `2.11` or `2.12` and rejects Pause and Resume is driven through Stop and
Start. -/
theorem RemoveTorrent_command_sequence_witness :
    (demoQBittorrent (.ok "2.10") rejectsStopStart ⟨[], [], []⟩).RemoveTorrent [] "c0ffee" true =
      (.returned (true, none),
        [Event.GetAPIVersion, Event.PauseTorrents ["c0ffee"], Event.Sleep 1,
          Event.ResumeTorrents ["c0ffee"], Event.Sleep 2, Event.ReannounceTorrents ["c0ffee"],
          Event.Sleep 2, Event.DeleteTorrents ["c0ffee"] true]) ∧
    (demoQBittorrent (.ok "2.11") rejectsPauseResume ⟨[], [], []⟩).RemoveTorrent [] "c0ffee"
        false =
      (.returned (true, none),
        [Event.GetAPIVersion, Event.StopTorrents ["c0ffee"], Event.Sleep 1,
          Event.StartTorrents ["c0ffee"], Event.Sleep 2, Event.ReannounceTorrents ["c0ffee"],
          Event.Sleep 2, Event.DeleteTorrents ["c0ffee"] false]) ∧
    (demoQBittorrent (.ok "2.12") rejectsPauseResume ⟨[], [], []⟩).RemoveTorrent [] "c0ffee"
        true =
      (.returned (true, none),
        [Event.GetAPIVersion, Event.StopTorrents ["c0ffee"], Event.Sleep 1,
          Event.StartTorrents ["c0ffee"], Event.Sleep 2, Event.ReannounceTorrents ["c0ffee"],
          Event.Sleep 2, Event.DeleteTorrents ["c0ffee"] true]) :=
  ⟨(RemoveTorrent_command_sequence
      (demoQBittorrent (.ok "2.10") rejectsStopStart ⟨[], [], []⟩) [] "c0ffee" true "2.10"
      [2, 10, 0] [2, 11, 0] rfl rfl rfl).1 (by decide) rfl rfl rfl rfl,
   (RemoveTorrent_command_sequence
      (demoQBittorrent (.ok "2.11") rejectsPauseResume ⟨[], [], []⟩) [] "c0ffee" false "2.11"
      [2, 11, 0] [2, 11, 0] rfl rfl rfl).2 (by decide) rfl rfl rfl rfl,
   (RemoveTorrent_command_sequence
      (demoQBittorrent (.ok "2.12") rejectsPauseResume ⟨[], [], []⟩) [] "c0ffee" true "2.12"
      [2, 12, 0] [2, 11, 0] rfl rfl rfl).2 (by decide) rfl rfl rfl rfl⟩

/-- C5: when a step of `RemoveTorrent` fails, it returns `false` and an error whose
text starts with the name of the failing step and which wraps the cause, and the
trace ends with the failing call, so that no later command is issued.  The steps
are: the version query, the version parse, stop, resume or start, re-announce,
delete.  A delete is issued only after stop, resume and re-announce succeeded, and
`RemoveTorrent` returns `true` only when its last call was a delete that
succeeded. -/
theorem RemoveTorrent_failure_aborts {G : Runtime} (c : QBittorrent G) (tr : List Event)
    (hash : String) (deleteData : Bool) :
    (∀ e, c.client.Application_GetAPIVersion tr = .error e →
      c.RemoveTorrent tr hash deleteData =
        (.returned (false, some (Error.wrapError ("get api version: " ++ e.text) e)),
          tr ++ [Event.GetAPIVersion])) ∧
    (∀ s e, c.client.Application_GetAPIVersion tr = .ok s → G.NewVersion s = .error e →
      c.RemoveTorrent tr hash deleteData =
        (.returned (false, some (Error.wrapError ("parse api version: " ++ e.text) e)),
          tr ++ [Event.GetAPIVersion])) ∧
    (∀ s v cutoff, c.client.Application_GetAPIVersion tr = .ok s → G.NewVersion s = .ok v →
      G.NewVersion "2.11" = .ok cutoff →
      (∀ e, c.client.answer (tr ++ [Event.GetAPIVersion])
          (stopEvent (G.LessThan v cutoff) hash) = some e →
        c.RemoveTorrent tr hash deleteData =
          (.returned (false,
              some (Error.wrapError ("stop torrent: " ++ hash ++ ": " ++ e.text) e)),
            tr ++ [Event.GetAPIVersion, stopEvent (G.LessThan v cutoff) hash])) ∧
      (∀ e, c.client.answer (tr ++ [Event.GetAPIVersion])
          (stopEvent (G.LessThan v cutoff) hash) = none →
        c.client.answer
          (tr ++ [Event.GetAPIVersion, stopEvent (G.LessThan v cutoff) hash, Event.Sleep 1])
          (resumeEvent (G.LessThan v cutoff) hash) = some e →
        c.RemoveTorrent tr hash deleteData =
          (.returned (false,
              some (Error.wrapError
                (resumeStep (G.LessThan v cutoff) ++ hash ++ ": " ++ e.text) e)),
            tr ++ [Event.GetAPIVersion, stopEvent (G.LessThan v cutoff) hash, Event.Sleep 1,
              resumeEvent (G.LessThan v cutoff) hash])) ∧
      (∀ e, c.client.answer (tr ++ [Event.GetAPIVersion])
          (stopEvent (G.LessThan v cutoff) hash) = none →
        c.client.answer
          (tr ++ [Event.GetAPIVersion, stopEvent (G.LessThan v cutoff) hash, Event.Sleep 1])
          (resumeEvent (G.LessThan v cutoff) hash) = none →
        c.client.answer
          (tr ++ [Event.GetAPIVersion, stopEvent (G.LessThan v cutoff) hash, Event.Sleep 1,
            resumeEvent (G.LessThan v cutoff) hash, Event.Sleep 2])
          (Event.ReannounceTorrents [hash]) = some e →
        c.RemoveTorrent tr hash deleteData =
          (.returned (false,
              some (Error.wrapError ("re-announce torrent: " ++ hash ++ ": " ++ e.text) e)),
            tr ++ [Event.GetAPIVersion, stopEvent (G.LessThan v cutoff) hash, Event.Sleep 1,
              resumeEvent (G.LessThan v cutoff) hash, Event.Sleep 2,
              Event.ReannounceTorrents [hash]])) ∧
      (∀ e, c.client.answer (tr ++ [Event.GetAPIVersion])
          (stopEvent (G.LessThan v cutoff) hash) = none →
        c.client.answer
          (tr ++ [Event.GetAPIVersion, stopEvent (G.LessThan v cutoff) hash, Event.Sleep 1])
          (resumeEvent (G.LessThan v cutoff) hash) = none →
        c.client.answer
          (tr ++ [Event.GetAPIVersion, stopEvent (G.LessThan v cutoff) hash, Event.Sleep 1,
            resumeEvent (G.LessThan v cutoff) hash, Event.Sleep 2])
          (Event.ReannounceTorrents [hash]) = none →
        c.client.answer
          (tr ++ [Event.GetAPIVersion, stopEvent (G.LessThan v cutoff) hash, Event.Sleep 1,
            resumeEvent (G.LessThan v cutoff) hash, Event.Sleep 2,
            Event.ReannounceTorrents [hash], Event.Sleep 2])
          (Event.DeleteTorrents [hash] deleteData) = some e →
        c.RemoveTorrent tr hash deleteData =
          (.returned (false,
              some (Error.wrapError ("delete torrent: " ++ hash ++ ": " ++ e.text) e)),
            tr ++ [Event.GetAPIVersion, stopEvent (G.LessThan v cutoff) hash, Event.Sleep 1,
              resumeEvent (G.LessThan v cutoff) hash, Event.Sleep 2,
              Event.ReannounceTorrents [hash], Event.Sleep 2,
              Event.DeleteTorrents [hash] deleteData]))) ∧
    (∀ (hs : List String) (d : Bool),
      Event.DeleteTorrents hs d ∈ ((c.RemoveTorrent tr hash deleteData).2).drop tr.length →
      ∃ below : Bool,
        c.client.answer (tr ++ [Event.GetAPIVersion]) (stopEvent below hash) = none ∧
        c.client.answer (tr ++ [Event.GetAPIVersion, stopEvent below hash, Event.Sleep 1])
          (resumeEvent below hash) = none ∧
        c.client.answer (tr ++ [Event.GetAPIVersion, stopEvent below hash, Event.Sleep 1,
          resumeEvent below hash, Event.Sleep 2]) (Event.ReannounceTorrents [hash]) = none) ∧
    (∀ err, (c.RemoveTorrent tr hash deleteData).1 = .returned (true, err) →
      err = none ∧
      ∃ tr2, (c.RemoveTorrent tr hash deleteData).2 =
          tr2 ++ [Event.DeleteTorrents [hash] deleteData] ∧
        c.client.Torrent_DeleteTorrents tr2 [hash] deleteData = none) := by
  refine ⟨?_, ?_, ?_, ?_, ?_⟩
  · intro e he
    simp [QBittorrent.RemoveTorrent, he, fmt_Errorf]
  · intro s e hs he
    simp [QBittorrent.RemoveTorrent, hs, he, fmt_Errorf]
  · intro s v cutoff hs hv hc
    rw [RemoveTorrent_eq_removalRun c tr hash deleteData s v cutoff hs hv hc]
    refine ⟨?_, ?_, ?_, ?_⟩
    · intro e h1
      simp [removalRun, h1, fmt_Errorf]
    · intro e h1 h2
      simp [removalRun, h1, h2, fmt_Errorf]
    · intro e h1 h2 h3
      simp [removalRun, h1, h2, h3, fmt_Errorf]
    · intro e h1 h2 h3 h4
      simp [removalRun, h1, h2, h3, h4, fmt_Errorf]
  · intro hs d hmem
    rcases RemoveTorrent_cases c tr hash deleteData with
      ⟨e, -, h⟩ | ⟨s, e, -, -, h⟩ | h | ⟨s, v, cutoff, -, -, -, h⟩
    · rw [h] at hmem; simp at hmem
    · rw [h] at hmem; simp at hmem
    · rw [h] at hmem; simp at hmem
    · rw [h] at hmem
      exact ⟨_, removalRun_delete c tr hash deleteData _ hs d hmem⟩
  · intro err hret
    rcases RemoveTorrent_cases c tr hash deleteData with
      ⟨e, -, h⟩ | ⟨s, e, -, -, h⟩ | h | ⟨s, v, cutoff, -, -, -, h⟩
    · rw [h] at hret; simp at hret
    · rw [h] at hret; simp at hret
    · rw [h] at hret; simp at hret
    · rw [h] at hret ⊢
      exact removalRun_true c tr hash deleteData _ err hret
/-- Witness of C5: a backend reporting `2.10` whose re-announce fails with `boom`
is sent Pause and Resume and the failing Reannounce, and no Delete; and when the
version query itself fails, nothing else is called. -/
theorem RemoveTorrent_failure_aborts_witness :
    (demoQBittorrent (.ok "2.10") (fun e => e == Event.ReannounceTorrents ["c0ffee"])
        ⟨[], [], []⟩).RemoveTorrent [] "c0ffee" true =
      (.returned (false, some (Error.wrapError "re-announce torrent: c0ffee: boom"
          (Error.errorString "boom"))),
        [Event.GetAPIVersion, Event.PauseTorrents ["c0ffee"], Event.Sleep 1,
          Event.ResumeTorrents ["c0ffee"], Event.Sleep 2, Event.ReannounceTorrents ["c0ffee"]]) ∧
    (demoQBittorrent (.error (Error.errorString "connection refused")) (fun _ => false)
        ⟨[], [], []⟩).RemoveTorrent [] "c0ffee" true =
      (.returned (false, some (Error.wrapError "get api version: connection refused"
          (Error.errorString "connection refused"))),
        [Event.GetAPIVersion]) :=
  ⟨((RemoveTorrent_failure_aborts
      (demoQBittorrent (.ok "2.10") (fun e => e == Event.ReannounceTorrents ["c0ffee"])
        ⟨[], [], []⟩) [] "c0ffee" true).2.2.1 "2.10" [2, 10, 0] [2, 11, 0] rfl rfl rfl).2.2.1
      (Error.errorString "boom") rfl rfl rfl,
   (RemoveTorrent_failure_aborts
      (demoQBittorrent (.error (Error.errorString "connection refused")) (fun _ => false)
        ⟨[], [], []⟩) [] "c0ffee" true).1 (Error.errorString "connection refused") rfl⟩

/-! ## Tracker selection -/

/-- The tracker loop computes the fields of the first real tracker. -/
theorem parseTrackerDetails_eq (G : Runtime) (ts : List qbt_TorrentTracker) :
    parseTrackerDetails G ts = trackerFields G ts := by
  induction ts with
  | nil => rfl
  | cons tracker l ih =>
    unfold trackerFields firstRealTracker at ih ⊢
    rw [parseTrackerDetails, List.find?_cons]
    by_cases hskip : skipTracker tracker = true
    · have h2 : (!(strings_Contains tracker.URL "[DHT]" || strings_Contains tracker.URL "[LSD]" ||
          strings_Contains tracker.URL "[PeX]")) = false := by
        show (!skipTracker tracker) = false
        rw [hskip]; rfl
      rw [if_pos hskip, h2, ih]
    · have h3 : skipTracker tracker = false := by simpa using hskip
      have h2 : (!(strings_Contains tracker.URL "[DHT]" || strings_Contains tracker.URL "[LSD]" ||
          strings_Contains tracker.URL "[PeX]")) = true := by
        show (!skipTracker tracker) = true
        rw [h3]; rfl
      rw [if_neg hskip, h2]

/-- Every record the loop of `GetTorrents` adds to the map has the tracker fields of
a tracker list the backend returned for its hash. -/
theorem GetTorrents_loop_tracker {G : Runtime} (c : QBittorrent G) (l : List qbt_Torrent) :
    ∀ (torrents : TorrentMap G) (tr : List Event) (m : TorrentMap G) (tr2 : List Event),
      (∀ h rec, torrents h = some rec →
        ∃ trq ts, c.client.Torrent_GetTrackers trq h = .ok ts ∧
          (rec.TrackerName, rec.TrackerStatus) = trackerFields G ts) →
      GetTorrents_loop c l torrents tr = ((some m, none), tr2) →
      ∀ h rec, m h = some rec →
        ∃ trq ts, c.client.Torrent_GetTrackers trq h = .ok ts ∧
          (rec.TrackerName, rec.TrackerStatus) = trackerFields G ts := by
  induction l with
  | nil =>
    intro torrents tr m tr2 hinv hrun
    simp only [GetTorrents_loop, Prod.mk.injEq, Option.some.injEq, true_and] at hrun
    rw [← hrun.1.1]
    exact hinv
  | cons t rest ih =>
    intro torrents tr m tr2 hinv hrun
    rw [GetTorrents_loop] at hrun
    rcases hp : c.client.Torrent_GetProperties tr t.Hash with e | td
    · simp only [hp] at hrun
      simp at hrun
    · rcases ht : c.client.Torrent_GetTrackers (tr ++ [Event.GetProperties t.Hash]) t.Hash with
        e | ts
      · simp only [hp, ht] at hrun
        simp at hrun
      · rcases hf : c.client.Torrent_GetContents
            (tr ++ [Event.GetProperties t.Hash] ++ [Event.GetTrackers t.Hash]) t.Hash with e | tf
        · simp only [hp, ht, hf] at hrun
          simp at hrun
        · simp only [hp, ht, hf] at hrun
          refine ih _ _ m tr2 ?_ hrun
          intro h rec hrec
          by_cases hh : h = t.Hash
          · rw [if_pos hh] at hrec
            refine ⟨_, ts, hh ▸ ht, ?_⟩
            have hrec2 := (Option.some.inj hrec).symm
            rw [hrec2]
            exact parseTrackerDetails_eq G ts
          · rw [if_neg hh] at hrec
            exact hinv h rec hrec

/-! ## Claim about tracker selection -/

/-- C8: every record in the map `GetTorrents` returns has, as `TrackerName` and
`TrackerStatus`, the parsed domain of the URL and the message of the first tracker,
in the order the backend returned them for the record's hash, whose URL contains
none of `[DHT]`, `[LSD]`, `[PeX]`, and the empty string for both when there is no
such tracker; the record built from any tracker list `ts` has these fields; and
for the URLs `udp://tracker.example:80[DHT]`, `http://real.tracker/announce` the
second tracker is the one selected. -/
theorem GetTorrents_tracker_selection {G : Runtime} (c : QBittorrent G) (tr : List Event) :
    (∀ (m : TorrentMap G) (tr2 : List Event), c.GetTorrents tr = ((some m, none), tr2) →
      ∀ h rec, m h = some rec →
        ∃ trq ts, c.client.Torrent_GetTrackers trq h = .ok ts ∧
          (rec.TrackerName, rec.TrackerStatus) =
            (match firstRealTracker ts with
              | some tracker => (G.parseTrackerDomain tracker.URL, tracker.Message)
              | none => ("", ""))) ∧
    (∀ (now : List Event) (t : qbt_Torrent) (td : qbt_TorrentProperties G)
        (ts : List qbt_TorrentTracker) (tf : List qbt_TorrentContent),
      ((buildTorrent c now t td ts tf).TrackerName,
          (buildTorrent c now t td ts tf).TrackerStatus) =
        (match firstRealTracker ts with
          | some tracker => (G.parseTrackerDomain tracker.URL, tracker.Message)
          | none => ("", ""))) ∧
    (∀ m1 m2 : String,
      firstRealTracker
          [⟨"udp://tracker.example:80[DHT]", m1⟩, ⟨"http://real.tracker/announce", m2⟩] =
        some ⟨"http://real.tracker/announce", m2⟩) := by
  refine ⟨?_, ?_, ?_⟩
  · intro m tr2 hrun h rec hrec
    unfold QBittorrent.GetTorrents at hrun
    rcases hl : c.client.Torrent_GetList tr with e | l
    · simp [hl] at hrun
    · simp only [hl] at hrun
      exact GetTorrents_loop_tracker c l _ _ m tr2 (by intro h rec hrec; simp at hrec) hrun h rec
        hrec
  · intro now t td ts tf
    exact parseTrackerDetails_eq G ts
  · intro m1 m2
    have h1 : (strings_Contains "udp://tracker.example:80[DHT]" "[DHT]" ||
        strings_Contains "udp://tracker.example:80[DHT]" "[LSD]" ||
        strings_Contains "udp://tracker.example:80[DHT]" "[PeX]") = true := by decide
    have h2 : (strings_Contains "http://real.tracker/announce" "[DHT]" ||
        strings_Contains "http://real.tracker/announce" "[LSD]" ||
        strings_Contains "http://real.tracker/announce" "[PeX]") = false := by decide
    simp only [firstRealTracker, List.find?_cons, h1, h2, Bool.not_true, Bool.not_false]

/-- Witness of C8: from a backend that lists one torrent with a DHT pseudo-tracker
in front of `http://real.tracker/announce` (message `Working`), `GetTorrents`
returns a record whose tracker fields are taken from the second tracker. -/
theorem GetTorrents_tracker_selection_witness :
    ∃ (m : TorrentMap demoRuntime) (rec : Torrent demoRuntime),
      (demoLister.GetTorrents []).1 = (some m, none) ∧ m "c0ffee" = some rec ∧
      (rec.TrackerName, rec.TrackerStatus) = ("real.tracker", "Working") := by
  refine ⟨_, _, rfl, rfl, ?_⟩
  obtain ⟨trq, ts, hts, hrec⟩ :=
    (GetTorrents_tracker_selection demoLister []).1 _ _ rfl "c0ffee" _ rfl
  have hts2 : ts =
      [⟨"udp://tracker.example:80[DHT]", ""⟩, ⟨"http://real.tracker/announce", "Working"⟩] :=
    (Except.ok.inj hts).symm
  rw [hrec, hts2, (GetTorrents_tracker_selection demoLister []).2.2 "" "Working"]
  rfl

/-! ## IEEE 754 rounding -/

theorem roundHalfEven_intCast (n : Int) : roundHalfEven (n : Rat) = n := by
  simp [roundHalfEven]

theorem roundHalfEven_below (y : Rat) (n : Int) (h1 : (n : Rat) ≤ y) (h2 : y < n + 1 / 2) :
    roundHalfEven y = n := by
  have hf : ⌊y⌋ = n := Int.floor_eq_iff.2 ⟨h1, by linarith⟩
  unfold roundHalfEven
  rw [hf, if_pos (by linarith)]

theorem roundHalfEven_tie_even (y : Rat) (n : Int) (h1 : y = n + 1 / 2) (h2 : n % 2 = 0) :
    roundHalfEven y = n := by
  have hf : ⌊y⌋ = n := Int.floor_eq_iff.2 ⟨by linarith, by linarith⟩
  unfold roundHalfEven
  rw [hf, if_neg (by linarith), if_neg (by linarith), if_pos h2]

theorem log_two_eq (x : Rat) (e : Int) (h1 : (2 : Rat) ^ e ≤ x) (h2 : x < 2 ^ (e + 1)) :
    Int.log 2 x = e := by
  have hx : 0 < x := lt_of_lt_of_le (by positivity) h1
  have a : e ≤ Int.log 2 x := (Int.zpow_le_iff_le_log (by norm_num) hx).1 (by exact_mod_cast h1)
  have b : Int.log 2 x < e + 1 := (Int.lt_zpow_iff_log_lt (by norm_num) hx).1 (by exact_mod_cast h2)
  omega

/-- Rounding leaves a number of the format as it is. -/
theorem round_exact (f : Format) (q : Rat) (h : f.Representable q) :
    IEEE.round f q = .finite q := by
  obtain ⟨m, e, hm, he1, he2, hq⟩ := h
  by_cases hq0 : q = 0
  · simp [IEEE.round, hq0]
  · have habs : |q| = (|m| : Int) * (2 : Rat) ^ e := by
      rw [hq, abs_mul, abs_of_pos (a := (2 : Rat) ^ e) (by positivity)]
      simp
    have hpos : 0 < |q| := abs_pos.2 hq0
    have hmlt : ((|m| : Int) : Rat) < 2 ^ (f.prec : Int) := by
      have : ((|m| : Int) : Rat) < ((2 ^ f.prec : Int) : Rat) := by exact_mod_cast hm
      simpa using this
    have hlt : |q| < (2 : Rat) ^ ((f.prec : Int) + e) := by
      rw [habs, zpow_add₀ (by norm_num : (2 : Rat) ≠ 0)]
      exact mul_lt_mul_of_pos_right hmlt (by positivity)
    have hlog : Int.log 2 |q| < (f.prec : Int) + e :=
      (Int.lt_zpow_iff_log_lt (by norm_num) hpos).1 (by exact_mod_cast hlt)
    have hk : f.quantum |q| ≤ e := by
      unfold Format.quantum
      rcases max_cases (Int.log 2 |q|) f.emin with ⟨h1, _⟩ | ⟨h1, _⟩ <;> rw [h1] <;> omega
    generalize hkk : f.quantum |q| = k at hk
    obtain ⟨d, hd⟩ := Int.eq_ofNat_of_zero_le (sub_nonneg.2 hk)
    have hscaled : |q| / 2 ^ k = ((|m| * 2 ^ d : Int) : Rat) := by
      rw [habs, mul_div_assoc, ← zpow_sub₀ (by norm_num : (2 : Rat) ≠ 0), hd]
      push_cast
      rw [zpow_natCast]
    have hr : ((roundHalfEven (|q| / 2 ^ k) : Int) : Rat) * 2 ^ k = |q| := by
      rw [hscaled, roundHalfEven_intCast, ← hscaled]
      field_simp
    have hover : ¬ (2 : Rat) ^ (f.emax + 1) ≤ |q| := by
      push_neg
      refine lt_of_lt_of_le hlt ?_
      exact zpow_le_zpow_right₀ (by norm_num) (by omega)
    unfold IEEE.round
    simp only [hkk, hr, if_neg hq0, if_neg hover, if_neg (ne_of_gt hpos)]
    congr 1
    by_cases hneg : q < 0
    · rw [if_pos hneg, abs_of_neg hneg, neg_neg]
    · rw [if_neg hneg, abs_of_nonneg (le_of_not_lt hneg)]

/-- A nonzero whole number of the `float64` format stays in the format when
divided by `2 ^ 30`. -/
theorem representable_div_GiByte (n : Int) (hn : n ≠ 0) (h : binary64.Representable (n : Rat)) :
    binary64.Representable ((n : Rat) / 2 ^ 30) := by
  obtain ⟨m, e, hm, he1, he2, hq⟩ := h
  simp only [binary64] at hm he1 he2
  by_cases hlow : -1074 ≤ e - 30
  · refine ⟨m, e - 30, hm, by simpa [binary64] using hlow, by simp only [binary64]; omega, ?_⟩
    rw [hq, zpow_sub₀ (by norm_num : (2 : Rat) ≠ 0)]
    norm_num
    ring
  · exfalso
    have h1 : (1 : Rat) ≤ |(n : Rat)| := by
      have : (1 : Int) ≤ |n| := Int.one_le_abs hn
      exact_mod_cast this
    have hmlt : ((|m| : Int) : Rat) < 2 ^ (53 : Int) := by
      have : ((|m| : Int) : Rat) < ((2 ^ 53 : Int) : Rat) := by exact_mod_cast hm
      norm_num at this ⊢
      exact this
    have h2 : |(n : Rat)| = (|m| : Int) * (2 : Rat) ^ e := by
      rw [hq, abs_mul, abs_of_pos (a := (2 : Rat) ^ e) (by positivity)]
      simp
    have h3 : (2 : Rat) ^ e ≤ 2 ^ (-1045 : Int) :=
      zpow_le_zpow_right₀ (by norm_num) (by omega)
    have h4 : |(n : Rat)| < 2 ^ (53 : Int) * 2 ^ (-1045 : Int) := by
      rw [h2]
      exact mul_lt_mul hmlt h3 (by positivity) (by positivity)
    have h5 : (2 : Rat) ^ (53 : Int) * 2 ^ (-1045 : Int) ≤ 1 := by
      rw [← zpow_add₀ (by norm_num : (2 : Rat) ≠ 0)]
      exact zpow_le_one_of_nonpos₀ (by norm_num) (by norm_num)
    linarith

/-- The value `AddFreeSpace` stores, with the IEEE 754 runtime. -/
theorem ieee_AddFreeSpace_value (c : QBittorrent ieeeRuntime) (tr : List Event) (n : Int) :
    ((c.AddFreeSpace tr n).1.GetFreeSpace (c.AddFreeSpace tr n).2).1 =
      IEEE.add binary64 c.freeSpaceGB
        (IEEE.div binary64 (IEEE.round binary64 (n : Rat)) (IEEE.round binary64 (2 ^ 30))) := by
  show IEEE.add binary64 c.freeSpaceGB
    (IEEE.div binary64 (IEEE.round binary64 (n : Rat))
      (IEEE.round binary64 ((humanize_GiByte : Int) : Rat))) = _
  norm_num [humanize_GiByte]

theorem round_GiByte : IEEE.round binary64 (2 ^ 30) = .finite (2 ^ 30) :=
  round_exact binary64 _ ⟨1, 30, by norm_num [binary64], by norm_num [binary64],
    by norm_num [binary64], by norm_num⟩

/-! ## Claim about free-space accounting -/

/-- Counterexample to C7 as stated: with IEEE 754 `float64` arithmetic the value
after `AddFreeSpace(n)` is not always `g + n / 2 ^ 30`.  From the initial value
`g = 0`, `AddFreeSpace(2 ^ 53 + 1)` leaves `8388608`, not `(2 ^ 53 + 1) / 2 ^ 30`:
the conversion `float64(n)` already rounds.  From `g = 2 ^ 30`, the value after a
baseline of `2 ^ 60` free bytes, `AddFreeSpace(1)` leaves `2 ^ 30`, not
`2 ^ 30 + 1 / 2 ^ 30`: the sum rounds. -/
theorem AddFreeSpace_not_exact_counterexample :
    ((((ieeeQBittorrent (.finite 0) false).AddFreeSpace [] (2 ^ 53 + 1)).1.GetFreeSpace []).1 =
        IEEE.finite 8388608 ∧
      IEEE.finite 8388608 ≠ IEEE.finite (0 + ((2 ^ 53 + 1 : Int) : Rat) / 2 ^ 30)) ∧
    ((((ieeeQBittorrent (.finite (2 ^ 30)) true).AddFreeSpace [] 1).1.GetFreeSpace []).1 =
        IEEE.finite (2 ^ 30) ∧
      IEEE.finite (2 ^ 30) ≠ IEEE.finite (2 ^ 30 + ((1 : Int) : Rat) / 2 ^ 30)) := by
  refine ⟨⟨?_, ?_⟩, ?_, ?_⟩
  · have hconv : IEEE.round binary64 (((2 ^ 53 + 1 : Int) : Rat)) = .finite (2 ^ 53) := by
      have hlog : Int.log 2 |(((2 ^ 53 + 1 : Int) : Rat))| = 53 :=
        log_two_eq _ 53 (by norm_num [abs_of_pos]) (by norm_num [abs_of_pos])
      have hk : binary64.quantum |(((2 ^ 53 + 1 : Int) : Rat))| = 1 := by
        unfold Format.quantum
        rw [hlog]
        rfl
      have hr : roundHalfEven (|(((2 ^ 53 + 1 : Int) : Rat))| / 2 ^ (1 : Int)) = 2 ^ 52 :=
        roundHalfEven_tie_even _ _ (by norm_num [abs_of_pos]) (by norm_num)
      unfold IEEE.round
      rw [hk, hr]
      norm_num [binary64]
    have hdiv : IEEE.round binary64 ((2 : Rat) ^ 53 / 2 ^ 30) = .finite 8388608 := by
      rw [round_exact binary64 _ ⟨1, 23, by norm_num [binary64], by norm_num [binary64],
        by norm_num [binary64], by norm_num⟩]
      norm_num
    have hsum : IEEE.round binary64 ((0 : Rat) + 8388608) = .finite 8388608 := by
      rw [round_exact binary64 _ ⟨1, 23, by norm_num [binary64], by norm_num [binary64],
        by norm_num [binary64], by norm_num⟩]
      norm_num
    refine (ieee_AddFreeSpace_value (ieeeQBittorrent (.finite 0) false) [] (2 ^ 53 + 1)).trans ?_
    rw [hconv, round_GiByte]
    show IEEE.add binary64 (IEEE.finite 0) (IEEE.div binary64 (.finite (2 ^ 53)) (.finite (2 ^ 30)))
      = _
    rw [IEEE.div, if_neg (by norm_num), if_neg (by norm_num), hdiv, IEEE.add, hsum]
  · intro h
    have h2 := IEEE.finite.inj h
    norm_num at h2
  · have hconv : IEEE.round binary64 (((1 : Int) : Rat)) = .finite 1 := by
      rw [round_exact binary64 _ ⟨1, 0, by norm_num [binary64], by norm_num [binary64],
        by norm_num [binary64], by norm_num⟩]
      norm_num
    have hdiv : IEEE.round binary64 ((1 : Rat) / 2 ^ 30) = .finite (1 / 2 ^ 30) :=
      round_exact binary64 _ ⟨1, -30, by norm_num [binary64], by norm_num [binary64],
        by norm_num [binary64], by norm_num⟩
    have hsum : IEEE.round binary64 ((2 : Rat) ^ 30 + 1 / 2 ^ 30) = .finite (2 ^ 30) := by
      have hlog : Int.log 2 |(2 : Rat) ^ 30 + 1 / 2 ^ 30| = 30 :=
        log_two_eq _ 30 (by norm_num [abs_of_pos]) (by norm_num [abs_of_pos])
      have hk : binary64.quantum |(2 : Rat) ^ 30 + 1 / 2 ^ 30| = -22 := by
        unfold Format.quantum
        rw [hlog]
        rfl
      have hr : roundHalfEven (|(2 : Rat) ^ 30 + 1 / 2 ^ 30| / 2 ^ (-22 : Int)) = 2 ^ 52 :=
        roundHalfEven_below _ _ (by norm_num [abs_of_pos]) (by norm_num [abs_of_pos])
      unfold IEEE.round
      rw [hk, hr]
      norm_num [binary64]
    refine (ieee_AddFreeSpace_value (ieeeQBittorrent (.finite (2 ^ 30)) true) [] 1).trans ?_
    rw [hconv, round_GiByte]
    show IEEE.add binary64 (IEEE.finite (2 ^ 30)) (IEEE.div binary64 (.finite 1) (.finite (2 ^ 30)))
      = _
    rw [IEEE.div, if_neg (by norm_num), if_neg (by norm_num), hdiv, IEEE.add, hsum]
  · intro h
    have h2 := IEEE.finite.inj h
    norm_num at h2

/-- C7, amended: after `AddFreeSpace(n)`, `GetFreeSpace()` returns the `float64`
sum of the earlier value `g` and the `float64` quotient of `float64(n)` by
`2 ^ 30`; `AddFreeSpace` adds no event to the trace, so it queries no filesystem,
and it leaves `freeSpaceSet` and every other field of the client as they were; and
`GetFreeSpace` changes neither the client nor the trace.  With IEEE 754 arithmetic
the value returned is exactly `g + n / 2 ^ 30` whenever `g` is finite and both `n`
and `g + n / 2 ^ 30` are numbers of the `float64` format. -/
theorem AddFreeSpace_then_GetFreeSpace_float64 :
    (∀ (G : Runtime) (c : QBittorrent G) (tr : List Event) (n : Int),
      ((c.AddFreeSpace tr n).1.GetFreeSpace (c.AddFreeSpace tr n).2).1 =
        G.f64_add (c.GetFreeSpace tr).1 (G.f64_div (G.f64_ofInt n) (G.f64_ofInt (2 ^ 30))) ∧
      (c.AddFreeSpace tr n).2 = tr ∧
      (c.AddFreeSpace tr n).1.freeSpaceSet = c.freeSpaceSet ∧
      (c.AddFreeSpace tr n).1 = { c with freeSpaceGB := (c.AddFreeSpace tr n).1.freeSpaceGB } ∧
      (c.GetFreeSpace tr).2 = (c, tr)) ∧
    (∀ (c : QBittorrent ieeeRuntime) (tr : List Event) (n : Int) (g : Rat),
      c.freeSpaceGB = IEEE.finite g →
      binary64.Representable (n : Rat) →
      binary64.Representable (g + (n : Rat) / 2 ^ 30) →
      ((c.AddFreeSpace tr n).1.GetFreeSpace (c.AddFreeSpace tr n).2).1 =
        IEEE.finite (g + (n : Rat) / 2 ^ 30)) := by
  refine ⟨fun G c tr n => ⟨rfl, rfl, rfl, rfl, rfl⟩, ?_⟩
  intro c tr n g hg hn hsum
  rw [ieee_AddFreeSpace_value, hg, round_exact binary64 _ hn, round_GiByte]
  by_cases hn0 : n = 0
  · subst hn0
    have hz : IEEE.div binary64 (.finite ((0 : Int) : Rat)) (.finite (2 ^ 30)) = .finite 0 := by
      rw [IEEE.div, if_neg (by norm_num), if_pos (by norm_num)]
      simp [IEEE.zero]
    rw [hz, IEEE.add]
    have h0 : g + ((0 : Int) : Rat) / 2 ^ 30 = g + 0 := by norm_num
    rw [h0] at hsum ⊢
    exact round_exact binary64 _ hsum
  · have hne : ((n : Int) : Rat) ≠ 0 := by exact_mod_cast hn0
    rw [IEEE.div, if_neg (by norm_num), if_neg hne,
      round_exact binary64 _ (representable_div_GiByte n hn0 hn), IEEE.add]
    exact round_exact binary64 _ hsum

/-- Witness of C7, amended: from a baseline of 500 GiB, crediting one byte gives
exactly `500 + 1 / 2 ^ 30`, and the flag stays set. -/
theorem AddFreeSpace_then_GetFreeSpace_float64_witness :
    (((ieeeQBittorrent (.finite 500) true).AddFreeSpace [] 1).1.GetFreeSpace []).1 =
        IEEE.finite (500 + ((1 : Int) : Rat) / 2 ^ 30) ∧
    ((ieeeQBittorrent (.finite 500) true).AddFreeSpace [] 1).1.freeSpaceSet = true ∧
    ((ieeeQBittorrent (.finite 500) true).AddFreeSpace [] 1).2 = [] :=
  ⟨AddFreeSpace_then_GetFreeSpace_float64.2 (ieeeQBittorrent (.finite 500) true) [] 1 500 rfl
      ⟨1, 0, by norm_num [binary64], by norm_num [binary64], by norm_num [binary64],
        by norm_num⟩
      ⟨536870912001, -30, by norm_num [binary64], by norm_num [binary64],
        by norm_num [binary64], by norm_num⟩,
   (AddFreeSpace_then_GetFreeSpace_float64.1 ieeeRuntime (ieeeQBittorrent (.finite 500) true)
      [] 1).2.2.1,
   (AddFreeSpace_then_GetFreeSpace_float64.1 ieeeRuntime (ieeeQBittorrent (.finite 500) true)
      [] 1).2.1⟩

end Tqm
